import Mathlib

/-!
Verification of the Life OS deterministic auto-scheduler
(`src/lib/scheduler.ts`) against its natural-language specification.

Shallow embedding conventions:

* Instants (`Date` values) are modelled as `Int` minutes in the ambient
  local timezone.  A day is 1440 minutes.  Minute `0` falls on a Thursday
  (mirroring the Unix epoch 1970-01-01), so `getDay t = (t / 1440 + 4) % 7`
  with the JavaScript convention `0 = Sunday`.  All `Date` arithmetic used
  by the scheduler (`startOfDay`, `addMinutes`, `diffInMinutes`,
  `getHours`/`getMinutes`, day-of-week) is exact at minute resolution, so
  the embedding is faithful for minute-aligned instants, which is the
  resolution the scheduler operates at.
* Hour-valued configuration fields (`dayStartHour`, `familyTimeStartHour`,
  ...) are rationals, because the source stores fractional hours
  (default `familyTimeStartHour = 17.5`) in IEEE numbers and only compares
  or scales them; all values occurring here are exactly representable.
* Scores are only ever compared; `calculateTaskScore` stores ten times
  the source value so it stays integral (the source divides a duration by
  10 in floating point, exact relative to the comparisons performed: all
  score differences are integer multiples of 1/10, far above float
  rounding error at these magnitudes).
* The source `generateSchedule(fixedEvents, tasks, config)` has no `now`
  parameter: it reads the ambient wall clock (`new Date()` at entry, a
  default `new Date()` inside `calculateTaskScore`, and `Date.now()`
  inside `generateId`) and draws `Math.random()` for block identifiers.
  The embedding makes those ambient effects explicit as the extra
  arguments `now : Int` (the clock reading) and `genId : Nat → String`
  (the stream of identifier strings produced by the time-and-randomness
  based `generateId`, indexed by call count).  The config merge
  `{...DEFAULT_CONFIG, ...config}` is modelled by taking the merged,
  fully-populated configuration as the argument.
* The single unbounded control structure of the source, the per-chunk
  `while (searchDate <= searchEndDate && !scheduled)` day-search loop,
  advances `searchDate` by exactly one day per iteration; it is embedded
  by structural recursion on a fuel equal to the number of remaining
  days, and fuel sufficiency is proved (claim C9).
-/

namespace Scheduler

/-! ## Calendar primitives (scheduler.ts utility section) -/

def startOfDay (t : Int) : Int := (t / 1440) * 1440

def addMinutes (t m : Int) : Int := t + m

/-- Source: `Math.floor((end - start) / 60000)`; exact at minute resolution. -/
def diffInMinutes (s e : Int) : Int := e - s

/-- Ceiling division by a positive divisor, the `Math.ceil(a / b)` of the source. -/
def cdiv (a b : Int) : Int := (a + b - 1) / b

/-- Source: `Math.ceil((deadline - from) / (24*60*60*1000))`. -/
def daysUntilDeadline (deadline fromT : Int) : Int := cdiv (deadline - fromT) 1440

/-- Source: `diffMs > 0 && diffMs <= 24h`. -/
def isDeadlineUrgent (deadline fromT : Int) : Bool :=
  decide (0 < deadline - fromT) && decide (deadline - fromT ≤ 1440)

/-- JavaScript `Date.prototype.getDay` (0 = Sunday) for the minute model. -/
def getDay (t : Int) : Int := (t / 1440 + 4) % 7

def isSunday (t : Int) : Bool := getDay t == 0

def isFriday (t : Int) : Bool := getDay t == 5

/-- Source: `date.getHours() + date.getMinutes() / 60`, i.e. the
minute-of-day divided by 60 (written with `mkRat`, which is the same
rational as `(t % 1440 : ℚ) / 60`). -/
def getDecimalHour (t : Int) : ℚ := mkRat (t % 1440) 60

/-- The whole minutes of `h` hours, `⌊h * 60⌋`, written on the numerator
and denominator so that it evaluates by integer division (`h.den` is
positive, so `ediv` is the floor). -/
def hourToMinutes (h : ℚ) : Int := h.num * 60 / (h.den : Int)

/-- Source: `setHours(hours, 0, 0, 0)`; fractional hours land at the
corresponding minute (the time value is clipped to integral ms, hence to
integral minutes for the 0.5-granular hours used here). -/
def setTimeOnDate (t : Int) (hours : ℚ) : Int := startOfDay t + hourToMinutes hours

/-- Source: `block_${Date.now()}_${Math.random().toString(36).substr(2, 9)}`.
The identifier depends on the wall clock and the random stream. -/
def generateId (nowMs : Int) (rand : String) : String :=
  "block_" ++ toString nowMs ++ "_" ++ rand

/-! ## Data model -/

inductive PriorityTier where
  | critical | core | backlog
  deriving Repr, DecidableEq

inductive TaskStatus where
  | pending | scheduled | in_progress | completed | skipped | backlog
  deriving Repr, DecidableEq

structure FixedEvent where
  id : String
  title : String
  start : Int
  endT : Int            -- source field `end` (Lean keyword)
  location : Option String := none
  contextTags : Option (List String) := none
  deriving Repr, DecidableEq

structure Task where
  id : String
  goalId : Option String := none
  goalsCategory : Option String := none   -- source `goals?.category` (populated via join)
  title : String
  durationMinutes : Int
  deadline : Option Int := none
  priority_tier : Option PriorityTier := none
  category : Option String := none
  isAssignment : Bool
  canSplit : Bool
  dependsOn : List String := []           -- `undefined` modelled as `[]` (same behaviour)
  parentHabitId : Option String := none
  status : Option TaskStatus := none
  scheduledStart : Option Int := none
  deriving Repr, DecidableEq

structure ScheduledBlock where
  id : String
  taskId : String
  taskTitle : String
  start : Int
  endT : Int            -- source field `end` (Lean keyword)
  durationMinutes : Int
  priority_tier : Option PriorityTier
  isVirtual : Bool
  chunkIndex : Option Int := none
  totalChunks : Option Int := none
  isCompleted : Bool
  deriving Repr, DecidableEq

structure TimeSlot where
  start : Int
  endT : Int
  durationMinutes : Int
  deriving Repr, DecidableEq

inductive WarningType where
  | family_time_compromised | overloaded | deadline_at_risk | anti_cramming_violated
  deriving Repr, DecidableEq

structure ScheduleWarning where
  type : WarningType
  message : String
  taskId : Option String := none
  deriving Repr, DecidableEq

structure ScheduleResult where
  scheduledBlocks : List ScheduledBlock
  overloadedTasks : List Task
  warnings : List ScheduleWarning
  deriving Repr, DecidableEq

structure SchedulerConfig where
  dayStartHour : ℚ
  dayEndHour : ℚ
  familyTimeStartHour : ℚ
  bufferMinutes : Int
  deepWorkStartHour : ℚ
  deepWorkEndHour : ℚ
  shallowWorkStartHour : ℚ
  shallowWorkEndHour : ℚ
  planningHorizonDays : Int
  maxTasksPerGoalPerDay : Int
  deriving Repr, DecidableEq

def DEFAULT_CONFIG : SchedulerConfig :=
  { dayStartHour := 8
    dayEndHour := 22
    familyTimeStartHour := mkRat 35 2     -- 17.5
    bufferMinutes := 15
    deepWorkStartHour := 8
    deepWorkEndHour := 12
    shallowWorkStartHour := 13
    shallowWorkEndHour := 15
    planningHorizonDays := 7
    maxTasksPerGoalPerDay := 3 }

/-! ## Stable sorting

JavaScript `Array.prototype.sort` is stable (ES2019).  Every comparator in
the scheduler has the form `(a, b) => key(a) - key(b)` for a numeric key,
which sorts ascending by key, keeping the original order of equal keys.
`stableSortByKey` reproduces exactly that: insertion sort where each
element is inserted after all elements whose key is not greater. -/

def insertSorted {α κ : Type} [LinearOrder κ] (k : α → κ) (x : α) : List α → List α
  | [] => [x]
  | y :: ys => if k x < k y then x :: y :: ys else y :: insertSorted k x ys

def stableSortByKey {α κ : Type} [LinearOrder κ] (k : α → κ) (l : List α) : List α :=
  l.foldl (fun acc x => insertSorted k x acc) []

/-! ## Task splitting (`splitTaskIntoChunks`) -/

structure TaskChunk where
  durationMinutes : Int
  preferredDay : Int
  chunkIndex : Int
  totalChunks : Int
  deriving Repr, DecidableEq

/-- The chunk-emitting `for (let i = 0; i < numChunks; i++)` loop of
`splitTaskIntoChunks`, by recursion on the remaining iteration count.
Arguments `i`, `remaining`, `currentDay`, `dueDateDuration` are the
mutable loop variables of the source. -/
def splitLoop (deadline : Option Int) (idealChunkSize maxDueDateDuration chunksPerDay numChunks : Int) :
    Nat → Int → Int → Int → Int → List TaskChunk
  | 0, _, _, _, _ => []
  | n + 1, i, remaining, currentDay, dueDateDuration =>
    let chunkDuration := min remaining idealChunkSize
    let isDueDate : Bool := match deadline with
      | some dl => startOfDay currentDay == startOfDay dl
      | none => false
    -- due-date cap: step the cursor back a day, but only if a chunk was already emitted
    let currentDay1 :=
      if isDueDate && decide (dueDateDuration + chunkDuration > maxDueDateDuration) && decide (0 < i) then
        addMinutes currentDay (-(24 * 60))
      else currentDay
    let chunk : TaskChunk :=
      { durationMinutes := chunkDuration, preferredDay := currentDay1
        chunkIndex := i, totalChunks := numChunks }
    let dueDateDuration1 := if isDueDate then dueDateDuration + chunkDuration else dueDateDuration
    let remaining1 := remaining - chunkDuration
    let currentDay2 :=
      if (i + 1) % chunksPerDay == 0 then
        let d := addMinutes currentDay1 (24 * 60)
        match deadline with
        | some dl => if d > dl then dl else d
        | none => d
      else currentDay1
    chunk :: splitLoop deadline idealChunkSize maxDueDateDuration chunksPerDay numChunks
      n (i + 1) remaining1 currentDay2 dueDateDuration1

def splitTaskIntoChunks (task : Task) (scheduleStartDate : Int) : List TaskChunk :=
  if task.durationMinutes ≤ 120 ∨ task.canSplit = false then
    -- recurring habits pinned to their deadline day
    let preferred := match task.parentHabitId, task.deadline with
      | some _, some dl => startOfDay dl
      | _, _ => scheduleStartDate
    [{ durationMinutes := task.durationMinutes, preferredDay := preferred
       chunkIndex := 0, totalChunks := 1 }]
  else
    let idealChunkSize := min 120 (max 60 90)
    let numChunks := cdiv task.durationMinutes idealChunkSize
    let deadlineDate := task.deadline.getD (addMinutes scheduleStartDate (7 * 24 * 60))
    let daysAvailable := max 1 (daysUntilDeadline deadlineDate scheduleStartDate)
    let maxDueDateDuration := task.durationMinutes / 2   -- Math.floor(duration * 0.5)
    let chunksPerDay := cdiv numChunks daysAvailable
    let startDay := match task.parentHabitId, task.deadline with
      | some _, some dl => startOfDay dl
      | _, _ => scheduleStartDate
    splitLoop task.deadline idealChunkSize maxDueDateDuration chunksPerDay numChunks
      numChunks.toNat 0 task.durationMinutes startDay 0

/-! ## Gap finding (`findGapsInDay`) -/

/-- The cursor sweep of `findGapsInDay`.  Note the source sets
`currentTime = busy.end` unconditionally (no `max` with the cursor), which
is reproduced here exactly. -/
def sweepGaps (workdayEnd : Int) : List (Int × Int) → Int → List TimeSlot
  | [], cursor =>
    if cursor < workdayEnd then
      (if 0 < diffInMinutes cursor workdayEnd then
        [{ start := cursor, endT := workdayEnd, durationMinutes := diffInMinutes cursor workdayEnd }]
      else [])
    else []
  | (s, e) :: rest, cursor =>
    (if cursor < s then
      (if 0 < diffInMinutes cursor s then
        [{ start := cursor, endT := s, durationMinutes := diffInMinutes cursor s }]
      else [])
    else []) ++ sweepGaps workdayEnd rest e

def findGapsInDay (date : Int) (fixedEvents : List FixedEvent)
    (existingBlocks : List ScheduledBlock) (config : SchedulerConfig) : List TimeSlot :=
  if isSunday date then [] else
  let dayStart := startOfDay date
  let workdayStart := setTimeOnDate date config.dayStartHour
  let workdayEnd := if isFriday date then setTimeOnDate date 17 else setTimeOnDate date config.dayEndHour
  let busyPeriods :=
    ((fixedEvents.filter (fun ev => startOfDay ev.start == dayStart)).map (fun ev => (ev.start, ev.endT)))
      ++ ((existingBlocks.filter (fun b => startOfDay b.start == dayStart)).map (fun b => (b.start, b.endT)))
  let sortedBusy := stableSortByKey (fun p => p.1) busyPeriods
  sweepGaps workdayEnd sortedBusy workdayStart

/-! ## Slot classification and scoring -/

def isInFamilyTime (slot : TimeSlot) (config : SchedulerConfig) : Bool :=
  decide (getDecimalHour slot.start ≥ config.familyTimeStartHour)

def isDeepWorkSlot (slot : TimeSlot) (config : SchedulerConfig) : Bool :=
  decide (getDecimalHour slot.start ≥ config.deepWorkStartHour)
    && decide (getDecimalHour slot.start < config.deepWorkEndHour)

/-- JavaScript `a || b` on an optional string: the empty string is falsy. -/
def jsOrString : Option String → String → String
  | some s, dflt => if s = "" then dflt else s
  | none, dflt => dflt

def scoreSlotForTask (slot : TimeSlot) (task : Task) (config : SchedulerConfig) : Int :=
  let category := jsOrString task.goalsCategory (jsOrString task.category "Personal")
  let isWorkCategory : Bool := category == "Business" || category == "Work" || category == "Career"
  let s0 : Int := 100
  let s1 := if isWorkCategory && isDeepWorkSlot slot config then s0 + 50 else s0
  let s2 := if task.priority_tier = some PriorityTier.critical then s1 + 40 else s1
  let s3 := if task.priority_tier = some PriorityTier.core then s2 + 15 else s2
  if slot.durationMinutes ≥ task.durationMinutes then s3 + 25 else s3

/-- Item prioritisation score.  `now` is the ambient clock reading: the
source calls `daysUntilDeadline(task.deadline)` whose `from` defaults to
`new Date()`.  The source value is `tier + bonus - daysLeft -
duration/10`; since scores are only ever compared, the embedding stores
ten times that value so that it stays an integer (the scale factor is
positive, so every comparison between scores is unchanged, and all
differences of source scores are integral multiples of 1/10, well above
IEEE rounding error at these magnitudes). -/
def calculateTaskScore (now : Int) (task : Task) : Int :=
  let tierScore : Int := match task.priority_tier.getD PriorityTier.core with
    | PriorityTier.critical => 30000
    | PriorityTier.core => 10000
    | PriorityTier.backlog => 0
  let s1 := match task.deadline with
    | some dl =>
      let daysLeft := daysUntilDeadline dl now
      let bonus : Int := if daysLeft ≤ 0 then 5000 else if daysLeft ≤ 3 then 3000 else if daysLeft ≤ 7 then 1000 else 0
      tierScore + bonus - 10 * daysLeft
    | none => tierScore - 1000
  s1 - task.durationMinutes

/-! ## Placement engine (`generateSchedule`)

The engine threads mutable state through the source loops:
`scheduledBlocks`, `overloadedTasks`, `warnings`, `scheduledTaskIds` (a
set, queried by membership only), the two-level velocity counter
`tasksPerGoalPerDay : Map<dayKey, Map<goalId, count>>` (an association
list keyed by `(start-of-day, goal)` with identical get/set behaviour),
and the number of `generateId` calls made so far (`nextId`, indexing the
ambient identifier stream `genId`). -/

structure SchedState where
  blocks : List ScheduledBlock
  overloadedTasks : List Task
  warnings : List ScheduleWarning
  scheduledTaskIds : List String
  velocity : List ((Int × String) × Int)
  nextId : Nat
  deriving Repr, DecidableEq

def velGet (vel : List ((Int × String) × Int)) (day : Int) (g : String) : Int :=
  match vel.find? (fun e => e.1.1 == day && e.1.2 == g) with
  | some e => e.2
  | none => 0

def velSet (vel : List ((Int × String) × Int)) (day : Int) (g : String) (v : Int) :
    List ((Int × String) × Int) :=
  if (vel.find? (fun e => e.1.1 == day && e.1.2 == g)).isSome then
    vel.map (fun e => if e.1.1 == day && e.1.2 == g then (e.1, v) else e)
  else ((day, g), v) :: vel

/-- The goal-velocity gate: for a task with a goal-identifier, whether
the `(day, goal)` counter has reached `maxTasksPerGoalPerDay`.  The
source guards the whole check with `if (goalId)`, which JavaScript
evaluates as falsy for the empty string: an item with `goalId = ""`
bypasses the gate. -/
def goalVelocityBlocked (vel : List ((Int × String) × Int)) (config : SchedulerConfig)
    (dayKey : Int) : Option String → Bool
  | some g =>
    if g = "" then false
    else decide (velGet vel dayKey g ≥ config.maxTasksPerGoalPerDay)
  | none => false

/-- Increment the `(day, goal)` counter when the task has a goal; the
source's `if (goalId)` is falsy for the empty string, so `goalId = ""`
is never counted. -/
def velBump (vel : List ((Int × String) × Int)) (dayKey : Int) :
    Option String → List ((Int × String) × Int)
  | some g => if g = "" then vel else velSet vel dayKey g (velGet vel dayKey g + 1)
  | none => vel

/-- `task.deadline && isDeadlineUrgent(task.deadline, searchDate)` of the
family-time guard. -/
def deadlineUrgentAt (searchDate : Int) : Option Int → Bool
  | some dl => isDeadlineUrgent dl searchDate
  | none => false

/-- Push one scheduled block for `chunk` of `task` at `slot.start` and
update the velocity counter, as both placement sites of the source do. -/
def pushChunkBlock (genId : Nat → String) (task : Task)
    (chunk : TaskChunk) (slot : TimeSlot) (searchDate : Int) (virtual : Bool) (st : SchedState) :
    SchedState :=
  let b : ScheduledBlock :=
    { id := genId st.nextId
      taskId := task.id
      taskTitle := task.title
      start := slot.start
      endT := addMinutes slot.start chunk.durationMinutes
      durationMinutes := chunk.durationMinutes
      priority_tier := task.priority_tier
      isVirtual := virtual
      chunkIndex := some chunk.chunkIndex
      totalChunks := some chunk.totalChunks
      isCompleted := task.status == some TaskStatus.completed }
  let dayKey := startOfDay searchDate
  { st with
    blocks := st.blocks ++ [b]
    nextId := st.nextId + 1
    velocity := velBump st.velocity dayKey task.goalId }

/-- One iteration of the `while (searchDate <= searchEndDate &&
!scheduled)` day-search loop, past its exit test: Sunday skip, goal
velocity gate, gap synthesis, regular placement, family-time fallback.
Returns `some st1` when the chunk got placed on `searchDate` (the
source sets `scheduled = true` and leaves the loop) and `none` when the
loop advances to the next day. -/
def placeChunkDay (genId : Nat → String) (fixedEvents : List FixedEvent)
    (config : SchedulerConfig) (now : Int) (task : Task) (chunk : TaskChunk)
    (searchDate : Int) (st : SchedState) : Option SchedState :=
  if isSunday searchDate then none
  else
    let dayKey := startOfDay searchDate
    -- goal velocity limit: move to the next day when the cap is reached
    if goalVelocityBlocked st.velocity config dayKey task.goalId then none
    else
      let gaps := findGapsInDay searchDate fixedEvents st.blocks config
      let eligibleGaps := gaps.filter (fun g => g.durationMinutes ≥ 30)
      let regularSlots := eligibleGaps.filter (fun g => !isInFamilyTime g config)
      let familyTimeSlots := eligibleGaps.filter (fun g => isInFamilyTime g config)
      let scoredSlots := stableSortByKey (fun p => -p.2)
        (regularSlots.map (fun s => (s, scoreSlotForTask s task config)))
      match scoredSlots.find? (fun p => p.1.durationMinutes ≥ chunk.durationMinutes) with
      | some p =>
        some (pushChunkBlock genId task chunk p.1 searchDate
          (decide (daysUntilDeadline searchDate now > config.planningHorizonDays)) st)
      | none =>
        -- family-time fallback
        let canUseFamilyTime : Bool := task.isAssignment
          && deadlineUrgentAt searchDate task.deadline
          && decide (regularSlots.length = 0)
        if familyTimeSlots.length > 0 && canUseFamilyTime then
          match familyTimeSlots.find? (fun s => s.durationMinutes ≥ chunk.durationMinutes) with
          | some s =>
            let st1 := pushChunkBlock genId task chunk s searchDate false st
            some { st1 with warnings := st1.warnings ++
              [{ type := WarningType.family_time_compromised
                 message := "Task \"" ++ task.title ++ "\" scheduled during Family Time"
                 taskId := some task.id }] }
          | none => none
        else none

/-- The day-search loop for a single chunk, by recursion on a fuel that
bounds the number of remaining iterations (the loop advances
`searchDate` by exactly one day whenever it does not place).  Returns
the `scheduled` flag and the updated state. -/
def placeChunkLoop (genId : Nat → String) (fixedEvents : List FixedEvent)
    (config : SchedulerConfig) (now : Int) (task : Task) (chunk : TaskChunk)
    (searchEndDate : Int) : Nat → Int → SchedState → Bool × SchedState
  | 0, _, st => (false, st)
  | fuel + 1, searchDate, st =>
    if searchDate > searchEndDate then (false, st)
    else
      match placeChunkDay genId fixedEvents config now task chunk searchDate st with
      | some st1 => (true, st1)
      | none =>
        placeChunkLoop genId fixedEvents config now task chunk searchEndDate fuel
          (addMinutes searchDate (24 * 60)) st

/-- Fuel sufficient for the day-search loop from `searchDate`:
one iteration per day of `[searchDate, searchEndDate]`. -/
def searchFuel (searchDate searchEndDate : Int) : Nat :=
  ((searchEndDate - searchDate) / 1440 + 1).toNat

def placeChunk (genId : Nat → String) (fixedEvents : List FixedEvent)
    (config : SchedulerConfig) (now : Int) (task : Task) (chunk : TaskChunk)
    (searchEndDate : Int) (st : SchedState) : Bool × SchedState :=
  placeChunkLoop genId fixedEvents config now task chunk searchEndDate
    (searchFuel chunk.preferredDay searchEndDate) chunk.preferredDay st

/-- The `for (const chunk of chunks)` loop; the Bool accumulates
`allChunksScheduled` (the source keeps trying later chunks after a
failure, so already-placed chunks stay in `scheduledBlocks`). -/
def processChunksGo (genId : Nat → String) (fixedEvents : List FixedEvent)
    (config : SchedulerConfig) (now : Int) (task : Task) (searchEndDate : Int) :
    List TaskChunk → Bool × SchedState → Bool × SchedState
  | [], acc => acc
  | chunk :: rest, acc =>
    let r := placeChunk genId fixedEvents config now task chunk searchEndDate acc.2
    processChunksGo genId fixedEvents config now task searchEndDate rest (acc.1 && r.1, r.2)

def processChunks (genId : Nat → String) (fixedEvents : List FixedEvent)
    (config : SchedulerConfig) (now : Int) (task : Task) (searchEndDate : Int)
    (chunks : List TaskChunk) (st : SchedState) : Bool × SchedState :=
  processChunksGo genId fixedEvents config now task searchEndDate chunks (true, st)

/-- One iteration of the floating-task loop: dependency gate, chunking,
chunk placement, then overload bookkeeping. -/
def processTask (genId : Nat → String) (fixedEvents : List FixedEvent)
    (config : SchedulerConfig) (now planningEndDate : Int)
    (st : SchedState) (task : Task) : SchedState :=
  if task.dependsOn.length > 0 && task.dependsOn.any (fun d => !st.scheduledTaskIds.contains d) then
    st
  else
    let chunks := splitTaskIntoChunks task now
    let searchEndDate := task.deadline.getD planningEndDate
    let r := processChunks genId fixedEvents config now task searchEndDate chunks st
    if r.1 then
      { r.2 with scheduledTaskIds := r.2.scheduledTaskIds ++ [task.id] }
    else
      { r.2 with
        overloadedTasks := r.2.overloadedTasks ++ [task]
        warnings := r.2.warnings ++
          [{ type := WarningType.overloaded
             message := "Task \"" ++ task.title ++ "\" could not be fully scheduled"
             taskId := some task.id }] }

/-- One step of Pass 1: a pinned task is laid down atomically at
`scheduledStart`, with no collision check and no chunking. -/
def pinTask (genId : Nat → String) (st : SchedState) (task : Task) : SchedState :=
  match task.scheduledStart with
  | none => st
  | some start =>
    { st with
      blocks := st.blocks ++
        [{ id := genId st.nextId
           taskId := task.id
           taskTitle := task.title
           start := start
           endT := addMinutes start task.durationMinutes
           durationMinutes := task.durationMinutes
           priority_tier := task.priority_tier
           isVirtual := false
           chunkIndex := none
           totalChunks := none
           isCompleted := task.status == some TaskStatus.completed }]
      nextId := st.nextId + 1
      scheduledTaskIds := st.scheduledTaskIds ++ [task.id] }

/-- Pass 1 over all tasks (non-pinned tasks are skipped). -/
def schedulePinned (genId : Nat → String) (tasks : List Task) (st : SchedState) : SchedState :=
  tasks.foldl (pinTask genId) st

/-- One step of the post-pass anti-cramming audit. -/
def antiCramStep (blocks : List ScheduledBlock) (ws : List ScheduleWarning) (task : Task) :
    List ScheduleWarning :=
  match task.deadline with
  | some dl =>
    if task.canSplit then
      let taskBlocks := blocks.filter (fun b => b.taskId == task.id)
      let dueDateBlocks := taskBlocks.filter (fun b => startOfDay b.start == startOfDay dl)
      let total := taskBlocks.foldl (fun s b => s + b.durationMinutes) (0 : Int)
      let due := dueDateBlocks.foldl (fun s b => s + b.durationMinutes) (0 : Int)
      -- source: `total > 0 && due / total > 0.5`; for `total > 0` the
      -- real-division test is exactly `total < 2 * due`
      if 0 < total ∧ total < 2 * due then
        ws ++ [{ type := WarningType.anti_cramming_violated
                 message := "Task \"" ++ task.title ++ "\" >50% on due date"
                 taskId := some task.id }]
      else ws
    else ws
  | none => ws

/-- The post-pass anti-cramming audit over the sorted floating tasks. -/
def antiCramWarnings (sortedTasks : List Task) (blocks : List ScheduledBlock) :
    List ScheduleWarning :=
  sortedTasks.foldl (antiCramStep blocks) []

def generateSchedule (now : Int) (genId : Nat → String) (fixedEvents : List FixedEvent)
    (tasks : List Task) (config : SchedulerConfig) : ScheduleResult :=
  let planningEndDate := addMinutes now (config.planningHorizonDays * 24 * 60)
  let st0 : SchedState :=
    { blocks := [], overloadedTasks := [], warnings := []
      scheduledTaskIds := [], velocity := [], nextId := 0 }
  let st1 := schedulePinned genId tasks st0
  let floatingTasks := tasks.filter (fun t => t.scheduledStart.isNone)
  let sortedTasks := stableSortByKey (fun t => -(calculateTaskScore now t)) floatingTasks
  let st2 := sortedTasks.foldl (processTask genId fixedEvents config now planningEndDate) st1
  { scheduledBlocks := stableSortByKey (fun b => b.start) st2.blocks
    overloadedTasks := st2.overloadedTasks
    warnings := st2.warnings ++ antiCramWarnings sortedTasks st2.blocks }

/-! ## Claim-level predicates -/

/-- Two instants fall on the same local date. -/
def sameLocalDate (x y : Int) : Prop := startOfDay x = startOfDay y

instance (x y : Int) : Decidable (sameLocalDate x y) :=
  inferInstanceAs (Decidable (startOfDay x = startOfDay y))

/-- Half-open intervals `[s1, e1)` and `[s2, e2)` do not intersect. -/
def disjointIntervals (s1 e1 s2 e2 : Int) : Prop := e1 ≤ s2 ∨ e2 ≤ s1

instance (s1 e1 s2 e2 : Int) : Decidable (disjointIntervals s1 e1 s2 e2) :=
  inferInstanceAs (Decidable (_ ∨ _))

/-- Two placed blocks on the same local date have disjoint intervals. -/
def blocksCompatible (b1 b2 : ScheduledBlock) : Prop :=
  sameLocalDate b1.start b2.start → disjointIntervals b1.start b1.endT b2.start b2.endT

instance (b1 b2 : ScheduledBlock) : Decidable (blocksCompatible b1 b2) :=
  inferInstanceAs (Decidable (_ → _))

/-- A placed block does not intersect any occupation on its local date. -/
def blockAvoidsEvents (fixedEvents : List FixedEvent) (b : ScheduledBlock) : Prop :=
  ∀ ev ∈ fixedEvents, sameLocalDate ev.start b.start →
    disjointIntervals b.start b.endT ev.start ev.endT

instance (fixedEvents : List FixedEvent) (b : ScheduledBlock) :
    Decidable (blockAvoidsEvents fixedEvents b) :=
  inferInstanceAs (Decidable (∀ ev ∈ fixedEvents, _ → _))

/-- Claim C2's no-collision property of a schedule result. -/
def noCollision (fixedEvents : List FixedEvent) (res : ScheduleResult) : Prop :=
  List.Pairwise blocksCompatible res.scheduledBlocks ∧
    ∀ b ∈ res.scheduledBlocks, blockAvoidsEvents fixedEvents b

instance (fixedEvents : List FixedEvent) (res : ScheduleResult) :
    Decidable (noCollision fixedEvents res) :=
  inferInstanceAs (Decidable (_ ∧ _))

/-- Occupations are well formed: nonempty and pairwise disjoint. -/
def eventsWellFormed (fixedEvents : List FixedEvent) : Prop :=
  (∀ ev ∈ fixedEvents, ev.start < ev.endT) ∧
    List.Pairwise (fun e1 e2 : FixedEvent =>
      disjointIntervals e1.start e1.endT e2.start e2.endT) fixedEvents

instance (fixedEvents : List FixedEvent) : Decidable (eventsWellFormed fixedEvents) :=
  inferInstanceAs (Decidable (_ ∧ _))

/-- Workday bounds stay inside the civil day (`0 ≤ dayStartHour < 24`,
`dayEndHour ≤ 24`), so a placed block starts on the date it was searched
on. -/
def configHoursSane (config : SchedulerConfig) : Prop :=
  0 ≤ config.dayStartHour ∧ config.dayStartHour < 24 ∧ config.dayEndHour ≤ 24

instance (config : SchedulerConfig) : Decidable (configHoursSane config) :=
  inferInstanceAs (Decidable (_ ∧ _))

/-- No task carries a pinned start. -/
def noPinnedTasks (tasks : List Task) : Prop :=
  ∀ t ∈ tasks, t.scheduledStart = none

instance (tasks : List Task) : Decidable (noPinnedTasks tasks) :=
  inferInstanceAs (Decidable (∀ t ∈ tasks, _ = _))

/-- All task durations are positive (the spec calls durations positive
integers; a nonpositive duration yields an empty block that the gap sweep
mishandles). -/
def positiveDurations (tasks : List Task) : Prop :=
  ∀ t ∈ tasks, 0 < t.durationMinutes

instance (tasks : List Task) : Decidable (positiveDurations tasks) :=
  inferInstanceAs (Decidable (∀ t ∈ tasks, _ < _))

/-- Task identifiers are pairwise distinct. -/
def distinctTaskIds (tasks : List Task) : Prop := (tasks.map Task.id).Nodup

instance (tasks : List Task) : Decidable (distinctTaskIds tasks) :=
  inferInstanceAs (Decidable (List.Nodup _))

/-- The placed blocks on local date `day` that belong to items carrying
goal-identifier `g` (claim C8). -/
def goalDayBlocks (tasks : List Task) (blocks : List ScheduledBlock) (day : Int) (g : String) :
    List ScheduledBlock :=
  blocks.filter (fun b =>
    decide (startOfDay b.start = day) &&
      decide (b.taskId ∈ (tasks.filter (fun t => t.goalId == some g)).map Task.id))

/-- Every id recorded as placed belongs to a task of the input and has
at least one block in the schedule state (claim C6). -/
def placedIdsBacked (tasks : List Task) (st : SchedState) : Prop :=
  ∀ i ∈ st.scheduledTaskIds, (∃ u ∈ tasks, u.id = i) ∧ ∃ b ∈ st.blocks, b.taskId = i

/-! ## Concrete scenario inputs

All instants are minutes with minute 0 on a Thursday; `5760 = 4 * 1440`
is a Monday 00:00, `6240` is that Monday 08:00, `7199` Monday 23:59,
`7200` Tuesday 00:00.  `idStream` stands for one fixed ambient
identifier stream. -/

def idStream : Nat → String := fun n => "block" ++ toString n

def mkTask (i : String) (dur : Int) : Task :=
  { id := i, title := i, durationMinutes := dur, isAssignment := false, canSplit := false }

def c1Tasks : List Task := [mkTask "t" 60]

def c2Tasks : List Task :=
  [{ mkTask "p1" 60 with scheduledStart := some 6000 },
   { mkTask "p2" 60 with scheduledStart := some 6000 }]

def c3Events : List FixedEvent :=
  [{ id := "ev", title := "busy", start := 6330, endT := 7080 }]   -- Monday 09:30 - 22:00

def c3Tasks : List Task :=
  [{ mkTask "t" 180 with canSplit := true, deadline := some 7199 }]

def c4Events : List FixedEvent :=
  [{ id := "e1", title := "outer", start := 6300, endT := 6480 },  -- Monday 09:00 - 12:00
   { id := "e2", title := "nested", start := 6360, endT := 6420 }] -- Monday 10:00 - 11:00

def c5Tasks : List Task := [{ mkTask "t" 181 with canSplit := true }]

def c6Tasks : List Task :=
  [{ mkTask "A" 60 with scheduledStart := some 7800 },             -- pinned Tuesday 10:00
   { mkTask "B" 30 with dependsOn := ["A"] }]

def c7Tasks : List Task :=
  [{ mkTask "p" 60 with scheduledStart := some 6840 }]             -- pinned Monday 18:00

def c8Tasks : List Task :=
  [{ mkTask "g1" 60 with goalId := some "g", scheduledStart := some 6240 },
   { mkTask "g2" 60 with goalId := some "g", scheduledStart := some 6300 },
   { mkTask "g3" 60 with goalId := some "g", scheduledStart := some 6360 },
   { mkTask "g4" 60 with goalId := some "g", scheduledStart := some 6420 }]

def c10Tasks : List Task :=
  [{ mkTask "p" 60 with canSplit := true, deadline := some 7199, scheduledStart := some 6360 }]

/-- A one-task scenario used by several witnesses: a 60-minute floating
task with no deadline, scheduled from Monday 00:00 on an empty calendar. -/
def wTasks : List Task := [mkTask "w" 60]

/-- Witness scenario for the dependency gate: floating A, floating B
depending on A. -/
def c6wTasks : List Task :=
  [mkTask "A" 30, { mkTask "B" 30 with dependsOn := ["A"] }]

/-- Witness scenario for the anti-cramming audit: a floating splittable
60-minute task with a Monday-night deadline, placed on Monday. -/
def c10wTasks : List Task :=
  [{ mkTask "w10" 60 with canSplit := true, deadline := some 7199 }]

/-- Witness scenario for the family-time discipline: Monday's whole
workday up to the family-time boundary (08:00 - 17:30) is occupied, so an
urgent assignment can only land in family time. -/
def c7wEvents : List FixedEvent :=
  [{ id := "e", title := "day", start := 6240, endT := 6810 }]

def c7wTasks : List Task :=
  [{ mkTask "a" 60 with isAssignment := true, deadline := some 7199 }]

/-- Witness scenario for the velocity cap: four floating one-hour items
all carrying goal "g" (`DEFAULT_CONFIG` caps a goal at 3 per day). -/
def c8wTasks : List Task :=
  [{ mkTask "a" 60 with goalId := some "g" },
   { mkTask "b" 60 with goalId := some "g" },
   { mkTask "c" 60 with goalId := some "g" },
   { mkTask "d" 60 with goalId := some "g" }]

/-- Demonstration scenario for the `if (goalId)` falsiness: four floating
one-hour items all carrying the EMPTY goal-identifier, which the source
neither gates nor counts. -/
def c8eTasks : List Task :=
  [{ mkTask "a" 60 with goalId := some "" },
   { mkTask "b" 60 with goalId := some "" },
   { mkTask "c" 60 with goalId := some "" },
   { mkTask "d" 60 with goalId := some "" }]

/-- The geometric invariant Pass 2 maintains on the running state: placed
blocks are nonempty intervals, pairwise compatible, and clear of every
occupation (claim C2). -/
def stInv (fixedEvents : List FixedEvent) (st : SchedState) : Prop :=
  (∀ b ∈ st.blocks, b.start < b.endT)
  ∧ List.Pairwise blocksCompatible st.blocks
  ∧ ∀ b ∈ st.blocks, blockAvoidsEvents fixedEvents b

/-- The family-time discipline on a state: every placed block starting at
or after `familyTimeStartHour` belongs to an input assignment whose
deadline is urgent from some instant of the block's local date, and a
FamilyTimeCompromised warning for that item is present (claim C7). -/
def familyTimeOk (tasks : List Task) (config : SchedulerConfig) (st : SchedState) : Prop :=
  ∀ b ∈ st.blocks, config.familyTimeStartHour ≤ getDecimalHour b.start →
    ∃ t ∈ tasks, t.id = b.taskId ∧ t.isAssignment = true
      ∧ (∃ dl, t.deadline = some dl
          ∧ ∃ s, sameLocalDate s b.start ∧ isDeadlineUrgent dl s = true)
      ∧ ∃ w ∈ st.warnings, w.type = WarningType.family_time_compromised
          ∧ w.taskId = some t.id

/-- The velocity-counter invariant: every `(day, goal)` counter for a
NONEMPTY goal-identifier equals the number of placed blocks of that goal
on that date and respects the per-day cap (claim C8).  The empty
identifier is excluded: the source's `if (goalId)` guard is falsy for
`""`, so such items are neither gated nor counted. -/
def velocityOk (tasks : List Task) (config : SchedulerConfig) (st : SchedState) : Prop :=
  ∀ (day : Int) (g : String), g ≠ "" →
    velGet st.velocity day g = ((goalDayBlocks tasks st.blocks day g).length : Int)
    ∧ velGet st.velocity day g ≤ config.maxTasksPerGoalPerDay

/-! ## Theorems

First the fuel bookkeeping for the day-search loop, then the claims in
order.  Minute `5760` is a Monday 00:00 throughout the concrete
scenarios. -/

theorem insertSorted_perm {α κ : Type} [LinearOrder κ] (k : α → κ) (x : α) (l : List α) :
    (insertSorted k x l).Perm (x :: l) := by
  induction l with
  | nil => exact List.Perm.refl _
  | cons y ys ih =>
    simp only [insertSorted]
    split
    · exact List.Perm.refl _
    · exact (List.Perm.cons y ih).trans (List.Perm.swap x y ys)

theorem stableSortByKey_perm {α κ : Type} [LinearOrder κ] (k : α → κ) (l : List α) :
    (stableSortByKey k l).Perm l := by
  suffices h : ∀ (l acc : List α),
      (l.foldl (fun acc x => insertSorted k x acc) acc).Perm (acc ++ l) by
    simpa using h l []
  intro l
  induction l with
  | nil => intro acc; simp
  | cons x xs ih =>
    intro acc
    simp only [List.foldl_cons]
    exact ((ih (insertSorted k x acc)).trans
      (((insertSorted_perm k x acc).append_right xs).trans List.perm_middle.symm))

theorem mem_stableSortByKey {α κ : Type} [LinearOrder κ] {k : α → κ} {l : List α} {x : α} :
    x ∈ stableSortByKey k l ↔ x ∈ l :=
  (stableSortByKey_perm k l).mem_iff

/-- Everything a successful day-step does: it was not Sunday, the goal
gate was open, the placed block sits at the start of a gap of that day
that is at least 30 minutes and at least chunk-sized, only `blocks`,
`warnings`, `velocity` and `nextId` change, and a family-time placement
implies the assignment-with-urgent-deadline guard and emits exactly one
FamilyTimeCompromised warning for the item. -/
theorem placeChunkDay_spec {genId : Nat → String} {evs : List FixedEvent}
    {cfg : SchedulerConfig} {now : Int} {task : Task} {chunk : TaskChunk}
    {sd : Int} {st st1 : SchedState}
    (h : placeChunkDay genId evs cfg now task chunk sd st = some st1) :
    ∃ (b : ScheduledBlock) (slot : TimeSlot) (wtail : List ScheduleWarning),
      st1.blocks = st.blocks ++ [b]
      ∧ slot ∈ findGapsInDay sd evs st.blocks cfg
      ∧ 30 ≤ slot.durationMinutes
      ∧ chunk.durationMinutes ≤ slot.durationMinutes
      ∧ b.taskId = task.id
      ∧ b.start = slot.start
      ∧ b.endT = addMinutes slot.start chunk.durationMinutes
      ∧ b.durationMinutes = chunk.durationMinutes
      ∧ b.chunkIndex = some chunk.chunkIndex
      ∧ st1.overloadedTasks = st.overloadedTasks
      ∧ st1.scheduledTaskIds = st.scheduledTaskIds
      ∧ st1.warnings = st.warnings ++ wtail
      ∧ (∀ w ∈ wtail, w.type = WarningType.family_time_compromised ∧ w.taskId = some task.id)
      ∧ isSunday sd = false
      ∧ (∀ g, task.goalId = some g → g ≠ "" →
          velGet st.velocity (startOfDay sd) g < cfg.maxTasksPerGoalPerDay
          ∧ st1.velocity = velSet st.velocity (startOfDay sd) g
              (velGet st.velocity (startOfDay sd) g + 1))
      ∧ (task.goalId = none ∨ task.goalId = some "" → st1.velocity = st.velocity)
      ∧ ((isInFamilyTime slot cfg = false ∧ wtail = [])
         ∨ (isInFamilyTime slot cfg = true ∧ task.isAssignment = true
            ∧ (∃ dl, task.deadline = some dl ∧ isDeadlineUrgent dl sd = true)
            ∧ wtail.length = 1)) := by
  unfold placeChunkDay at h
  split at h
  next => exact Option.noConfusion h
  next hsun =>
  dsimp only at h
  split at h
  next hblocked => exact Option.noConfusion h
  next hblocked =>
  have hblocked1 : goalVelocityBlocked st.velocity cfg (startOfDay sd) task.goalId = false := by
    simpa using hblocked
  split at h
  next p hfind =>
    -- regular placement
    have hpmem := List.mem_of_find?_eq_some hfind
    have hppred := List.find?_some hfind
    rw [mem_stableSortByKey] at hpmem
    obtain ⟨s, hs_reg, hs_eq⟩ := List.mem_map.mp hpmem
    have hslot1 : p.1 = s := by rw [← hs_eq]
    have hs_elig := (List.mem_filter.mp hs_reg).1
    have hs_fam : isInFamilyTime s cfg = false := by
      have := (List.mem_filter.mp hs_reg).2
      simpa using this
    have hs_gap := (List.mem_filter.mp hs_elig).1
    have hs_30 : (30 : Int) ≤ s.durationMinutes := by
      have := (List.mem_filter.mp hs_elig).2
      simpa using this
    have hs_fit : chunk.durationMinutes ≤ p.1.durationMinutes := by
      simpa using hppred
    obtain rfl : pushChunkBlock genId task chunk p.1 sd
        (decide (daysUntilDeadline sd now > cfg.planningHorizonDays)) st = st1 :=
      Option.some.inj h
    refine ⟨_, p.1, [], rfl, ?_, ?_, hs_fit, ?_, ?_, ?_, ?_, ?_, ?_, ?_, ?_, ?_, ?_, ?_, ?_, ?_⟩
    · rw [hslot1]; exact hs_gap
    · rw [hslot1]; exact hs_30
    · rfl
    · rfl
    · rfl
    · rfl
    · rfl
    · simp [pushChunkBlock]
    · simp [pushChunkBlock]
    · simp [pushChunkBlock]
    · intro w hw; cases hw
    · simpa using hsun
    · intro g hg hne
      rw [hg] at hblocked1
      constructor
      · have h2 : decide (velGet st.velocity (startOfDay sd) g ≥ cfg.maxTasksPerGoalPerDay)
            = false := by
          simp only [goalVelocityBlocked, if_neg hne] at hblocked1
          exact hblocked1
        simpa using h2
      · simp [pushChunkBlock, hg, velBump, hne]
    · rintro (hg | hg) <;> simp [pushChunkBlock, hg, velBump]
    · left
      exact ⟨by rw [hslot1]; exact hs_fam, rfl⟩
  next hfind =>
  split at h
  next hfam =>
    split at h
    next s hfind2 =>
      -- family-time placement
      have hsmem := List.mem_of_find?_eq_some hfind2
      have hspred := List.find?_some hfind2
      have hs_elig := (List.mem_filter.mp hsmem).1
      have hs_famT : isInFamilyTime s cfg = true := (List.mem_filter.mp hsmem).2
      have hs_gap := (List.mem_filter.mp hs_elig).1
      have hs_30 : (30 : Int) ≤ s.durationMinutes := by
        have := (List.mem_filter.mp hs_elig).2
        simpa using this
      have hs_fit : chunk.durationMinutes ≤ s.durationMinutes := by simpa using hspred
      rw [Bool.and_eq_true] at hfam
      obtain ⟨hlen, hcan⟩ := hfam
      rw [Bool.and_eq_true, Bool.and_eq_true] at hcan
      obtain ⟨⟨hassign, hurgent⟩, hreg0⟩ := hcan
      have hdl : ∃ dl, task.deadline = some dl ∧ isDeadlineUrgent dl sd = true := by
        cases hd : task.deadline with
        | none => rw [hd] at hurgent; exact Bool.noConfusion hurgent
        | some dl =>
          rw [hd] at hurgent
          exact ⟨dl, rfl, by simpa [deadlineUrgentAt] using hurgent⟩
      obtain rfl := Option.some.inj h
      refine ⟨_, s,
        [{ type := WarningType.family_time_compromised
           message := "Task \"" ++ task.title ++ "\" scheduled during Family Time"
           taskId := some task.id }],
        rfl, hs_gap, hs_30, hs_fit, ?_, ?_, ?_, ?_, ?_, ?_, ?_, ?_, ?_, ?_, ?_, ?_, ?_⟩
      · rfl
      · rfl
      · rfl
      · rfl
      · rfl
      · simp [pushChunkBlock]
      · simp [pushChunkBlock]
      · simp [pushChunkBlock]
      · intro w hw
        simp at hw
        subst hw
        exact ⟨rfl, rfl⟩
      · simpa using hsun
      · intro g hg hne
        rw [hg] at hblocked1
        constructor
        · have h2 : decide (velGet st.velocity (startOfDay sd) g ≥ cfg.maxTasksPerGoalPerDay)
              = false := by
            simp only [goalVelocityBlocked, if_neg hne] at hblocked1
            exact hblocked1
          simpa using h2
        · simp [pushChunkBlock, hg, velBump, hne]
      · rintro (hg | hg) <;> simp [pushChunkBlock, hg, velBump]
      · right
        exact ⟨hs_famT, hassign, hdl, rfl⟩
    next hfind2 => exact Option.noConfusion h
  next hfam => exact Option.noConfusion h

theorem searchFuel_eq_zero {sd sed : Int} (h : searchFuel sd sed = 0) : sed < sd := by
  unfold searchFuel at h
  omega

theorem searchFuel_step {sd sed : Int} (h : searchFuel sd sed ≠ 0) :
    searchFuel (addMinutes sd (24 * 60)) sed + 1 = searchFuel sd sed := by
  unfold searchFuel addMinutes at *
  omega

/-- What the whole day-search loop does to the state: it appends at most
one block (exactly one when it reports success), all for this task and
chunk, appends only FamilyTimeCompromised warnings for this task, and
leaves `overloadedTasks` and `scheduledTaskIds` unchanged. -/
theorem placeChunkLoop_spec (genId : Nat → String) (evs : List FixedEvent)
    (cfg : SchedulerConfig) (now : Int) (task : Task) (chunk : TaskChunk) (sed : Int) :
    ∀ (fuel : Nat) (sd : Int) (st : SchedState) (bres : Bool) (res : SchedState),
      placeChunkLoop genId evs cfg now task chunk sed fuel sd st = (bres, res) →
      ∃ (tail : List ScheduledBlock) (wtail : List ScheduleWarning),
        res.blocks = st.blocks ++ tail
        ∧ res.overloadedTasks = st.overloadedTasks
        ∧ res.scheduledTaskIds = st.scheduledTaskIds
        ∧ res.warnings = st.warnings ++ wtail
        ∧ (∀ w ∈ wtail, w.type = WarningType.family_time_compromised ∧ w.taskId = some task.id)
        ∧ (∀ b ∈ tail, b.taskId = task.id ∧ b.durationMinutes = chunk.durationMinutes
            ∧ b.chunkIndex = some chunk.chunkIndex)
        ∧ (bres = true → tail.length = 1)
        ∧ (bres = false → tail = []) := by
  intro fuel
  induction fuel with
  | zero =>
    intro sd st bres res h
    obtain ⟨rfl, rfl⟩ := Prod.mk.inj h.symm
    exact ⟨[], [], by simp, rfl, rfl, by simp, by simp, by simp, by simp, fun _ => rfl⟩
  | succ fuel ih =>
    intro sd st bres res h
    rw [placeChunkLoop] at h
    split at h
    · obtain ⟨rfl, rfl⟩ := Prod.mk.inj h.symm
      exact ⟨[], [], by simp, rfl, rfl, by simp, by simp, by simp, by simp, fun _ => rfl⟩
    · split at h
      next st1 hday =>
        obtain ⟨rfl, rfl⟩ := Prod.mk.inj h.symm
        obtain ⟨b, slot, wtail, hbl, _, _, _, hbid, _, _, hbdur, hbci, hov, hids, hws, hwty,
          _, _, _, _⟩ := placeChunkDay_spec hday
        refine ⟨[b], wtail, hbl, hov, hids, hws, hwty, ?_, fun _ => rfl, by simp⟩
        intro b0 hb0
        simp at hb0
        subst hb0
        exact ⟨hbid, hbdur, hbci⟩
      next hday => exact ih _ st bres res h

/-- What the chunk loop (`for (const chunk of chunks)`) does to the
state, for an arbitrary incoming `allChunksScheduled` accumulator. -/
theorem processChunksGo_spec (genId : Nat → String) (evs : List FixedEvent)
    (cfg : SchedulerConfig) (now : Int) (task : Task) (sed : Int) :
    ∀ (chunks : List TaskChunk) (b0 : Bool) (st : SchedState) (bres : Bool) (res : SchedState),
      processChunksGo genId evs cfg now task sed chunks (b0, st) = (bres, res) →
      ∃ (tail : List ScheduledBlock) (wtail : List ScheduleWarning),
        res.blocks = st.blocks ++ tail
        ∧ res.overloadedTasks = st.overloadedTasks
        ∧ res.scheduledTaskIds = st.scheduledTaskIds
        ∧ res.warnings = st.warnings ++ wtail
        ∧ (∀ w ∈ wtail, w.type = WarningType.family_time_compromised ∧ w.taskId = some task.id)
        ∧ (∀ b ∈ tail, b.taskId = task.id)
        ∧ (bres = true → b0 = true
            ∧ tail.map (fun b => b.durationMinutes) = chunks.map (fun c => c.durationMinutes)
            ∧ tail.map (fun b => b.chunkIndex) = chunks.map (fun c => some c.chunkIndex))
        ∧ tail.length ≤ chunks.length
        ∧ (b0 = true → bres = false → tail.length < chunks.length) := by
  intro chunks
  induction chunks with
  | nil =>
    intro b0 st bres res h
    obtain ⟨rfl, rfl⟩ := Prod.mk.inj h
    exact ⟨[], [], by simp, rfl, rfl, by simp, by simp, by simp,
      fun hb => ⟨hb, by simp, by simp⟩, by simp, fun hb0 hb => by simp [hb0] at hb⟩
  | cons chunk rest ih =>
    intro b0 st bres res h
    rw [processChunksGo] at h
    rcases hpl : placeChunk genId evs cfg now task chunk sed st with ⟨b1, st1⟩
    rw [hpl] at h
    obtain ⟨tail1, wtail1, hbl1, hov1, hids1, hws1, hwty1, hbprop1, hone1, hnone1⟩ :=
      placeChunkLoop_spec genId evs cfg now task chunk sed _ _ st b1 st1 hpl
    obtain ⟨tail2, wtail2, hbl2, hov2, hids2, hws2, hwty2, hbprop2, hsucc2, hlen2, hcount2⟩ :=
      ih (b0 && b1) st1 bres res h
    refine ⟨tail1 ++ tail2, wtail1 ++ wtail2, ?_, ?_, ?_, ?_, ?_, ?_, ?_, ?_, ?_⟩
    · rw [hbl2, hbl1, List.append_assoc]
    · rw [hov2, hov1]
    · rw [hids2, hids1]
    · rw [hws2, hws1, List.append_assoc]
    · intro w hw
      rcases List.mem_append.mp hw with hw1 | hw2
      · exact hwty1 w hw1
      · exact hwty2 w hw2
    · intro b hb
      rcases List.mem_append.mp hb with hb1 | hb2
      · exact (hbprop1 b hb1).1
      · exact hbprop2 b hb2
    · intro hb
      obtain ⟨hb01, hmap2, hmap2i⟩ := hsucc2 hb
      rw [Bool.and_eq_true] at hb01
      obtain ⟨hb0, hb1⟩ := hb01
      obtain ⟨bb, hbb⟩ := List.length_eq_one.mp (hone1 hb1)
      subst hbb
      obtain ⟨hbid, hbdur, hbci⟩ := hbprop1 bb (by simp)
      refine ⟨hb0, ?_, ?_⟩
      · simp only [List.map_append, hmap2, List.map_cons, List.map_nil]
        rw [hbdur]
        rfl
      · simp only [List.map_append, hmap2i, List.map_cons, List.map_nil]
        rw [hbci]
        rfl
    · have h1 : tail1.length ≤ 1 := by
        cases hb1 : b1 with
        | false => simp [hnone1 hb1]
        | true => simp [hone1 hb1]
      simp only [List.length_append, List.length_cons]
      omega
    · intro hb0 hbres
      cases hb1 : b1 with
      | false =>
        have h1 : tail1 = [] := hnone1 hb1
        simp only [h1, List.nil_append, List.length_cons]
        omega
      | true =>
        have h1 : tail1.length = 1 := hone1 hb1
        have h2 : tail2.length < rest.length :=
          hcount2 (by simp [hb0, hb1]) hbres
        simp only [List.length_append, List.length_cons]
        omega

/-- What one floating-task iteration does to the state: either the
dependency gate skips the task (no change, no warning), or all chunks
place (ids gain the task, blocks gain one block per chunk, no Overloaded
warning), or some chunk fails (task joins `overloadedTasks` along with
exactly one Overloaded warning, while already-placed partial chunks stay
in `blocks`). -/
theorem processTask_spec {genId : Nat → String} {evs : List FixedEvent}
    {cfg : SchedulerConfig} {now ped : Int} {st : SchedState} {task : Task}
    {st' : SchedState} (h : processTask genId evs cfg now ped st task = st') :
    ∃ (tail : List ScheduledBlock) (wtail : List ScheduleWarning),
      st'.blocks = st.blocks ++ tail
      ∧ (∀ b ∈ tail, b.taskId = task.id)
      ∧ st'.warnings = st.warnings ++ wtail
      ∧ (∀ w ∈ wtail, w.taskId = some task.id)
      ∧ ((st' = st ∧ tail = [] ∧ wtail = []
            ∧ ∃ d ∈ task.dependsOn, st.scheduledTaskIds.contains d = false)
        ∨ ((∀ d ∈ task.dependsOn, st.scheduledTaskIds.contains d = true)
            ∧ st'.overloadedTasks = st.overloadedTasks
            ∧ st'.scheduledTaskIds = st.scheduledTaskIds ++ [task.id]
            ∧ tail.map (fun b => b.durationMinutes)
                = (splitTaskIntoChunks task now).map (fun c => c.durationMinutes)
            ∧ tail.map (fun b => b.chunkIndex)
                = (splitTaskIntoChunks task now).map (fun c => some c.chunkIndex)
            ∧ wtail.filter (fun w => w.type == WarningType.overloaded) = [])
        ∨ ((∀ d ∈ task.dependsOn, st.scheduledTaskIds.contains d = true)
            ∧ st'.overloadedTasks = st.overloadedTasks ++ [task]
            ∧ st'.scheduledTaskIds = st.scheduledTaskIds
            ∧ tail.length < (splitTaskIntoChunks task now).length
            ∧ wtail.filter (fun w => w.type == WarningType.overloaded)
                = [{ type := WarningType.overloaded
                     message := "Task \"" ++ task.title ++ "\" could not be fully scheduled"
                     taskId := some task.id }])) := by
  unfold processTask at h
  split at h
  next hgate =>
    subst h
    rw [Bool.and_eq_true] at hgate
    obtain ⟨-, hany⟩ := hgate
    obtain ⟨d, hd, hdc⟩ := List.any_eq_true.mp hany
    exact ⟨[], [], by simp, by simp, by simp, by simp,
      Or.inl ⟨rfl, rfl, rfl, d, hd, by simpa using hdc⟩⟩
  next hgate =>
    have hdeps : ∀ d ∈ task.dependsOn, st.scheduledTaskIds.contains d = true := by
      intro d hd
      by_contra hc
      exact hgate (by
        rw [Bool.and_eq_true]
        refine ⟨by simpa using List.length_pos_of_mem hd, ?_⟩
        exact List.any_eq_true.mpr ⟨d, hd, by simpa using hc⟩)
    dsimp only at h
    rcases hpc : processChunks genId evs cfg now task (task.deadline.getD ped)
        (splitTaskIntoChunks task now) st with ⟨bres, res⟩
    rw [hpc] at h
    obtain ⟨tail, wtail, hbl, hov, hids, hws, hwty, hbprop, hsucc, hlen, hcount⟩ :=
      processChunksGo_spec genId evs cfg now task (task.deadline.getD ped)
        (splitTaskIntoChunks task now) true st bres res hpc
    cases bres with
    | true =>
      rw [if_pos rfl] at h
      subst h
      obtain ⟨-, hmapd, hmapi⟩ := hsucc rfl
      refine ⟨tail, wtail, hbl, hbprop, hws, fun w hw => (hwty w hw).2, Or.inr (Or.inl ?_)⟩
      refine ⟨hdeps, hov, by rw [hids], hmapd, hmapi, ?_⟩
      rw [List.filter_eq_nil_iff]
      intro w hw
      have := (hwty w hw).1
      simp [this]
    | false =>
      rw [if_neg Bool.false_ne_true] at h
      subst h
      refine ⟨tail, wtail ++
        [{ type := WarningType.overloaded
           message := "Task \"" ++ task.title ++ "\" could not be fully scheduled"
           taskId := some task.id }], hbl, hbprop, ?_, ?_, Or.inr (Or.inr ?_)⟩
      · rw [hws, List.append_assoc]
      · intro w hw
        rcases List.mem_append.mp hw with hw1 | hw2
        · exact (hwty w hw1).2
        · simp at hw2
          subst hw2
          rfl
      · refine ⟨hdeps, by rw [hov], by rw [hids], hcount rfl rfl, ?_⟩
        rw [List.filter_append]
        have h1 : wtail.filter (fun w => w.type == WarningType.overloaded) = [] := by
          rw [List.filter_eq_nil_iff]
          intro w hw
          have := (hwty w hw).1
          simp [this]
        rw [h1]
        simp

/-- One pinning step only touches `blocks`, `scheduledTaskIds` and
`nextId`. -/
theorem pinTask_unchanged (genId : Nat → String) (st : SchedState) (task : Task) :
    (pinTask genId st task).overloadedTasks = st.overloadedTasks
    ∧ (pinTask genId st task).warnings = st.warnings
    ∧ (pinTask genId st task).velocity = st.velocity := by
  cases h : task.scheduledStart <;> simp [pinTask, h]

/-- The chunk-emitting loop, at `idealChunkSize = 90`: when started with
a positive remainder and the fuel `⌈remaining / 90⌉` that
`splitTaskIntoChunks` supplies, the emitted chunk durations sum to the
remainder and each lies in `(0, 90]`. -/
theorem splitLoop_durations (dl : Option Int) (mdd cpd nC : Int) :
    ∀ (n : Nat) (i rem day dd : Int), 0 < rem → (n : Int) = cdiv rem 90 →
      ((splitLoop dl 90 mdd cpd nC n i rem day dd).map (fun c => c.durationMinutes)).sum = rem
      ∧ ∀ c ∈ splitLoop dl 90 mdd cpd nC n i rem day dd,
          0 < c.durationMinutes ∧ c.durationMinutes ≤ 90 := by
  intro n
  induction n with
  | zero =>
    intro i rem day dd hrem hn
    exfalso
    unfold cdiv at hn
    omega
  | succ n ih =>
    intro i rem day dd hrem hn
    unfold cdiv at hn
    by_cases hr : rem ≤ 90
    · have hmin : min rem 90 = rem := min_eq_left hr
      have hn0 : n = 0 := by omega
      subst hn0
      simp only [splitLoop, hmin, List.map_cons, List.map_nil, List.sum_cons, List.sum_nil]
      refine ⟨by omega, ?_⟩
      intro c hc
      simp at hc
      rcases hc with rfl
      exact ⟨hrem, hr⟩
    · have hmin : min rem 90 = 90 := min_eq_right (by omega)
      have hih1 := fun day dd => (ih (i + 1) (rem - 90) day dd (by omega)
        (by unfold cdiv; omega)).1
      have hih2 := fun day dd => (ih (i + 1) (rem - 90) day dd (by omega)
        (by unfold cdiv; omega)).2
      simp only [splitLoop, hmin, List.map_cons, List.sum_cons]
      constructor
      · rw [hih1 _ _]; omega
      · intro c hc
        simp only [List.mem_cons] at hc
        rcases hc with rfl | hc
        · exact ⟨by simp, by simp⟩
        · exact hih2 _ _ c hc

/-- An unsplittable (or short) item yields one chunk of full duration. -/
theorem splitTaskIntoChunks_unsplit {task : Task} {now : Int}
    (h : task.durationMinutes ≤ 120 ∨ task.canSplit = false) :
    ∃ c, splitTaskIntoChunks task now = [c]
      ∧ c.durationMinutes = task.durationMinutes
      ∧ c.chunkIndex = 0 ∧ c.totalChunks = 1 := by
  unfold splitTaskIntoChunks
  rw [if_pos h]
  exact ⟨_, rfl, rfl, rfl, rfl⟩

/-- A genuinely split item has chunk durations summing to the item
duration, each chunk in `(0, 90]` minutes. -/
theorem splitTaskIntoChunks_split {task : Task} {now : Int}
    (h1 : 120 < task.durationMinutes) (h2 : task.canSplit = true) :
    ((splitTaskIntoChunks task now).map (fun c => c.durationMinutes)).sum = task.durationMinutes
    ∧ ∀ c ∈ splitTaskIntoChunks task now,
        0 < c.durationMinutes ∧ c.durationMinutes ≤ 90 := by
  unfold splitTaskIntoChunks
  rw [if_neg (by
    rintro (ha | hb)
    · omega
    · rw [h2] at hb; exact Bool.noConfusion hb)]
  have hideal : (min 120 (max 60 90) : Int) = 90 := by decide
  dsimp only
  rw [hideal]
  apply splitLoop_durations
  · omega
  · rw [Int.toNat_of_nonneg]
    unfold cdiv
    omega

/-- `splitTaskIntoChunks` never returns the empty list. -/
theorem splitTaskIntoChunks_ne_nil (task : Task) (now : Int) :
    splitTaskIntoChunks task now ≠ [] := by
  unfold splitTaskIntoChunks
  split
  · simp
  next hns =>
    have hd : 120 < task.durationMinutes := by
      by_contra hc
      exact hns (Or.inl (by omega))
    dsimp only
    have hpos : 0 < (cdiv task.durationMinutes (min 120 (max 60 90))).toNat := by
      have : (min 120 (max 60 90) : Int) = 90 := by decide
      rw [this]
      unfold cdiv
      omega
    cases hn : (cdiv task.durationMinutes (min 120 (max 60 90))).toNat with
    | zero => omega
    | succ k => simp [splitLoop]

/-- The chunk durations of any item sum to the item duration. -/
theorem splitTaskIntoChunks_sum (task : Task) (now : Int) :
    ((splitTaskIntoChunks task now).map (fun c => c.durationMinutes)).sum
      = task.durationMinutes := by
  by_cases h : task.durationMinutes ≤ 120 ∨ task.canSplit = false
  · obtain ⟨c, hc, hdur, -, -⟩ := @splitTaskIntoChunks_unsplit _ now h
    rw [hc]
    simp [hdur]
  · push_neg at h
    obtain ⟨ha, hb⟩ := h
    exact (splitTaskIntoChunks_split (by omega) (by
      cases hcs : task.canSplit with
      | false => exact absurd hcs hb
      | true => rfl)).1

/-- Pass 1 only touches `blocks`, `scheduledTaskIds` and `nextId`. -/
theorem schedulePinned_unchanged (genId : Nat → String) :
    ∀ (tasks : List Task) (st : SchedState),
      (schedulePinned genId tasks st).overloadedTasks = st.overloadedTasks
      ∧ (schedulePinned genId tasks st).warnings = st.warnings
      ∧ (schedulePinned genId tasks st).velocity = st.velocity := by
  intro tasks
  induction tasks with
  | nil => intro st; exact ⟨rfl, rfl, rfl⟩
  | cons t ts ih =>
    intro st
    obtain ⟨h1, h2, h3⟩ := pinTask_unchanged genId st t
    obtain ⟨g1, g2, g3⟩ := ih (pinTask genId st t)
    have e : schedulePinned genId (t :: ts) st = schedulePinned genId ts (pinTask genId st t) := by
      simp [schedulePinned]
    rw [e]
    exact ⟨g1.trans h1, g2.trans h2, g3.trans h3⟩

/-- When no task is pinned, Pass 1 does nothing. -/
theorem schedulePinned_noPinned (genId : Nat → String) :
    ∀ (tasks : List Task) (st : SchedState), (∀ t ∈ tasks, t.scheduledStart = none) →
      schedulePinned genId tasks st = st := by
  intro tasks
  induction tasks with
  | nil => intro st _; rfl
  | cons t ts ih =>
    intro st hp
    have ht : t.scheduledStart = none := hp t (by simp)
    have hstep : pinTask genId st t = st := by simp [pinTask, ht]
    show List.foldl (pinTask genId) st (t :: ts) = st
    rw [List.foldl_cons, hstep]
    exact ih st (fun u hu => hp u (by simp [hu]))

/-- Membership in the accumulator survives an audit step. -/
theorem antiCramStep_mono (blocks : List ScheduledBlock) (ws : List ScheduleWarning)
    (task : Task) : ∀ w ∈ ws, w ∈ antiCramStep blocks ws task := by
  intro w hw
  unfold antiCramStep
  split
  · split
    · dsimp only
      split
      · exact List.mem_append_left _ hw
      · exact hw
    · exact hw
  · exact hw

/-- An audit step appends only `anti_cramming_violated` warnings. -/
theorem antiCramStep_types (blocks : List ScheduledBlock) (ws : List ScheduleWarning)
    (task : Task) : ∀ w ∈ antiCramStep blocks ws task,
      w ∈ ws ∨ w.type = WarningType.anti_cramming_violated := by
  intro w hw
  unfold antiCramStep at hw
  split at hw
  · split at hw
    · dsimp only at hw
      split at hw
      · rcases List.mem_append.mp hw with h1 | h2
        · exact Or.inl h1
        · simp at h2; subst h2; exact Or.inr rfl
      · exact Or.inl hw
    · exact Or.inl hw
  · exact Or.inl hw

/-- Every warning produced by the anti-cramming audit has type
`anti_cramming_violated`. -/
theorem antiCramWarnings_types (sortedTasks : List Task) (blocks : List ScheduledBlock) :
    ∀ w ∈ antiCramWarnings sortedTasks blocks,
      w.type = WarningType.anti_cramming_violated := by
  suffices haux : ∀ (l : List Task) (acc : List ScheduleWarning),
      (∀ w ∈ acc, w.type = WarningType.anti_cramming_violated) →
      ∀ w ∈ l.foldl (antiCramStep blocks) acc, w.type = WarningType.anti_cramming_violated by
    intro w hw
    exact haux sortedTasks [] (by simp) w hw
  intro l
  induction l with
  | nil => intro acc hacc w hw; exact hacc w hw
  | cons t ts ih =>
    intro acc hacc w hw
    rw [List.foldl_cons] at hw
    refine ih _ ?_ w hw
    intro w1 hw1
    rcases antiCramStep_types blocks acc t w1 hw1 with h1 | h2
    · exact hacc w1 h1
    · exact h2

/-- The day-search loop is insensitive to any fuel at or above
`searchFuel`: the source loop terminates within that many iterations. -/
theorem placeChunkLoop_fuel_irrelevant (genId : Nat → String) (evs : List FixedEvent)
    (cfg : SchedulerConfig) (now : Int) (task : Task) (chunk : TaskChunk) (sed : Int) :
    ∀ (n m : Nat) (sd : Int) (st : SchedState),
      searchFuel sd sed ≤ n → searchFuel sd sed ≤ m →
      placeChunkLoop genId evs cfg now task chunk sed n sd st
        = placeChunkLoop genId evs cfg now task chunk sed m sd st := by
  intro n
  induction n with
  | zero =>
    intro m sd st hn hm
    have hlt : sed < sd := searchFuel_eq_zero (Nat.le_zero.mp hn)
    cases m with
    | zero => rfl
    | succ m =>
      simp only [placeChunkLoop]
      rw [if_pos (by omega : sd > sed)]
  | succ n ih =>
    intro m sd st hn hm
    cases m with
    | zero =>
      have hlt : sed < sd := searchFuel_eq_zero (Nat.le_zero.mp hm)
      simp only [placeChunkLoop]
      rw [if_pos (by omega : sd > sed)]
    | succ m =>
      by_cases hguard : sd > sed
      · simp only [placeChunkLoop]
        rw [if_pos hguard, if_pos hguard]
      · have hf : searchFuel sd sed ≠ 0 := fun h0 => hguard (by
          have := searchFuel_eq_zero h0; omega)
        have hstep := @searchFuel_step sd sed hf
        simp only [placeChunkLoop]
        rw [if_neg hguard, if_neg hguard]
        cases hday : placeChunkDay genId evs cfg now task chunk sd st with
        | some st1 => rfl
        | none => exact ih m (addMinutes sd (24 * 60)) st (by omega) (by omega)

/-- Claim C9: the scheduling core is total.  The only unbounded control
structure of the source is the per-chunk day-search loop; it terminates
within `searchFuel` iterations (first conjunct: the embedded loop gives
the same answer for every fuel at or above the one `placeChunk`
supplies), and consequently `generateSchedule` returns a normal
`ScheduleResult` for every input, including items with nonpositive
durations, occupations with `end ≤ start`, and items with defaulted
priority tiers; no exceptional channel exists. -/
theorem C9_generateSchedule_total :
    (∀ (genId : Nat → String) (evs : List FixedEvent) (cfg : SchedulerConfig) (now : Int)
      (task : Task) (chunk : TaskChunk) (sed sd : Int) (st : SchedState) (k : Nat),
      placeChunkLoop genId evs cfg now task chunk sed (searchFuel sd sed + k) sd st
        = placeChunkLoop genId evs cfg now task chunk sed (searchFuel sd sed) sd st)
    ∧ ∀ (now : Int) (genId : Nat → String) (evs : List FixedEvent) (tasks : List Task)
      (cfg : SchedulerConfig), ∃ r, generateSchedule now genId evs tasks cfg = r := by
  constructor
  · intro genId evs cfg now task chunk sed sd st k
    exact placeChunkLoop_fuel_irrelevant genId evs cfg now task chunk sed _ _ sd st
      (Nat.le_add_right _ _) (Nat.le_refl _)
  · intro now genId evs tasks cfg
    exact ⟨_, rfl⟩

/-- What Pass 1 appends: one block and one placed id per pinned task. -/
theorem schedulePinned_spec (genId : Nat → String) :
    ∀ (tasks : List Task) (st : SchedState),
      ∃ (tail : List ScheduledBlock) (idt : List String),
        (schedulePinned genId tasks st).blocks = st.blocks ++ tail
        ∧ (schedulePinned genId tasks st).scheduledTaskIds = st.scheduledTaskIds ++ idt
        ∧ (∀ b ∈ tail, ∃ u ∈ tasks, b.taskId = u.id ∧ u.scheduledStart ≠ none)
        ∧ (∀ i ∈ idt, ∃ u ∈ tasks, u.id = i ∧ u.scheduledStart ≠ none
            ∧ ∃ b ∈ tail, b.taskId = i) := by
  intro tasks
  induction tasks with
  | nil => intro st; exact ⟨[], [], by simp [schedulePinned], by simp [schedulePinned], by simp, by simp⟩
  | cons t ts ih =>
    intro st
    have hstep : schedulePinned genId (t :: ts) st = schedulePinned genId ts (pinTask genId st t) := by
      simp [schedulePinned]
    obtain ⟨tail2, idt2, hb2, hi2, hbp2, hip2⟩ := ih (pinTask genId st t)
    cases hp : t.scheduledStart with
    | none =>
      have hpt : pinTask genId st t = st := by simp [pinTask, hp]
      rw [hpt] at hb2 hi2
      refine ⟨tail2, idt2, by rw [hstep, hpt]; exact hb2, by rw [hstep, hpt]; exact hi2, ?_, ?_⟩
      · intro b hb
        obtain ⟨u, hu, h1, h2⟩ := hbp2 b hb
        exact ⟨u, List.mem_cons_of_mem _ hu, h1, h2⟩
      · intro i hi
        obtain ⟨u, hu, h1, h2, h3⟩ := hip2 i hi
        exact ⟨u, List.mem_cons_of_mem _ hu, h1, h2, h3⟩
    | some s =>
      have hbt0 : (pinTask genId st t).blocks = st.blocks ++
          [{ id := genId st.nextId, taskId := t.id, taskTitle := t.title, start := s
             endT := addMinutes s t.durationMinutes, durationMinutes := t.durationMinutes
             priority_tier := t.priority_tier, isVirtual := false, chunkIndex := none
             totalChunks := none, isCompleted := t.status == some TaskStatus.completed }] := by
        simp [pinTask, hp]
      obtain ⟨pb, hbt, hpbid⟩ : ∃ pb, (pinTask genId st t).blocks = st.blocks ++ [pb]
          ∧ pb.taskId = t.id := ⟨_, hbt0, rfl⟩
      have hit : (pinTask genId st t).scheduledTaskIds = st.scheduledTaskIds ++ [t.id] := by
        simp [pinTask, hp]
      rw [hbt] at hb2
      rw [hit] at hi2
      refine ⟨pb :: tail2, t.id :: idt2, ?_, ?_, ?_, ?_⟩
      · rw [hstep, hb2, List.append_assoc]; rfl
      · rw [hstep, hi2, List.append_assoc]; rfl
      · intro b hb
        rcases List.mem_cons.mp hb with rfl | hb
        · exact ⟨t, List.mem_cons_self t ts, hpbid, by simp [hp]⟩
        · obtain ⟨u, hu, h1, h2⟩ := hbp2 b hb
          exact ⟨u, List.mem_cons_of_mem _ hu, h1, h2⟩
      · intro i hi
        rcases List.mem_cons.mp hi with rfl | hi
        · exact ⟨t, List.mem_cons_self t ts, rfl, by simp [hp], pb, List.mem_cons_self _ _, hpbid⟩
        · obtain ⟨u, hu, h1, h2, b, hb, h3⟩ := hip2 i hi
          exact ⟨u, List.mem_cons_of_mem _ hu, h1, h2, b, List.mem_cons_of_mem _ hb, h3⟩

/-- The floating-task fold appends to every state component, and every
appended block carries the id of one of the folded tasks. -/
theorem processTask_fold_mono (genId : Nat → String) (evs : List FixedEvent)
    (cfg : SchedulerConfig) (now ped : Int) :
    ∀ (ts : List Task) (st : SchedState),
      ∃ (tail : List ScheduledBlock) (idt : List String) (otail : List Task)
        (wtail : List ScheduleWarning),
        (ts.foldl (processTask genId evs cfg now ped) st).blocks = st.blocks ++ tail
        ∧ (ts.foldl (processTask genId evs cfg now ped) st).scheduledTaskIds
            = st.scheduledTaskIds ++ idt
        ∧ (ts.foldl (processTask genId evs cfg now ped) st).overloadedTasks
            = st.overloadedTasks ++ otail
        ∧ (ts.foldl (processTask genId evs cfg now ped) st).warnings = st.warnings ++ wtail
        ∧ (∀ b ∈ tail, ∃ u ∈ ts, b.taskId = u.id) := by
  intro ts
  induction ts with
  | nil => intro st; exact ⟨[], [], [], [], by simp, by simp, by simp, by simp, by simp⟩
  | cons t rest ih =>
    intro st
    rw [List.foldl_cons]
    obtain ⟨tail1, wtail1, hbl1, hbid1, hws1, -, htri⟩ :=
      processTask_spec (rfl : processTask genId evs cfg now ped st t = _)
    obtain ⟨tail2, idt2, otail2, wtail2, hb2, hi2, ho2, hw2, hbp2⟩ :=
      ih (processTask genId evs cfg now ped st t)
    have hids1 : ∃ idt1, (processTask genId evs cfg now ped st t).scheduledTaskIds
        = st.scheduledTaskIds ++ idt1 := by
      rcases htri with ⟨hst, -, -, -⟩ | ⟨-, -, hi, -, -, -⟩ | ⟨-, -, hi, -, -⟩
      · exact ⟨[], by rw [hst]; simp⟩
      · exact ⟨[t.id], hi⟩
      · exact ⟨[], by rw [hi]; simp⟩
    have hov1 : ∃ otail1, (processTask genId evs cfg now ped st t).overloadedTasks
        = st.overloadedTasks ++ otail1 := by
      rcases htri with ⟨hst, -, -, -⟩ | ⟨-, ho, -, -, -, -⟩ | ⟨-, ho, -, -, -⟩
      · exact ⟨[], by rw [hst]; simp⟩
      · exact ⟨[], by rw [ho]; simp⟩
      · exact ⟨[t], ho⟩
    obtain ⟨idt1, hi1⟩ := hids1
    obtain ⟨otail1, ho1⟩ := hov1
    refine ⟨tail1 ++ tail2, idt1 ++ idt2, otail1 ++ otail2, wtail1 ++ wtail2, ?_, ?_, ?_, ?_, ?_⟩
    · rw [hb2, hbl1, List.append_assoc]
    · rw [hi2, hi1, List.append_assoc]
    · rw [ho2, ho1, List.append_assoc]
    · rw [hw2, hws1, List.append_assoc]
    · intro b hb
      rcases List.mem_append.mp hb with hb | hb
      · exact ⟨t, List.mem_cons_self t rest, hbid1 b hb⟩
      · obtain ⟨u, hu, h1⟩ := hbp2 b hb
        exact ⟨u, List.mem_cons_of_mem _ hu, h1⟩

/-- Folding tasks none of which carries id `i` does not change the
blocks filtered to id `i`. -/
theorem processTask_fold_filter_stable (genId : Nat → String) (evs : List FixedEvent)
    (cfg : SchedulerConfig) (now ped : Int) (ts : List Task) (st : SchedState) (i : String)
    (hni : i ∉ ts.map Task.id) :
    (ts.foldl (processTask genId evs cfg now ped) st).blocks.filter (fun b => b.taskId == i)
      = st.blocks.filter (fun b => b.taskId == i) := by
  obtain ⟨tail, idt, otail, wtail, hb, -, -, -, hbp⟩ :=
    processTask_fold_mono genId evs cfg now ped ts st
  rw [hb, List.filter_append]
  have : tail.filter (fun b => b.taskId == i) = [] := by
    rw [List.filter_eq_nil_iff]
    intro b hb1
    obtain ⟨u, hu, hid⟩ := hbp b hb1
    simp only [beq_iff_eq]
    rw [hid]
    intro hui
    exact hni (hui ▸ List.mem_map_of_mem Task.id hu)
  rw [this, List.append_nil]

/-- A floating task appears among the sorted floating tasks. -/
theorem sortedTasks_mem {now : Int} {tasks : List Task} {t : Task}
    (hmem : t ∈ tasks) (hfloat : t.scheduledStart = none) :
    t ∈ stableSortByKey (fun u => -(calculateTaskScore now u))
      (tasks.filter (fun u => u.scheduledStart.isNone)) := by
  rw [mem_stableSortByKey]
  exact List.mem_filter.mpr ⟨hmem, by simp [hfloat]⟩

/-- Distinct task ids survive filtering and sorting. -/
theorem sortedTasks_nodup {now : Int} {tasks : List Task} (hnd : distinctTaskIds tasks) :
    ((stableSortByKey (fun u => -(calculateTaskScore now u))
      (tasks.filter (fun u => u.scheduledStart.isNone))).map Task.id).Nodup := by
  have hperm := (stableSortByKey_perm (fun u => -(calculateTaskScore now u))
    (tasks.filter (fun u => u.scheduledStart.isNone))).map Task.id
  rw [hperm.nodup_iff]
  exact hnd.sublist ((List.filter_sublist tasks).map (f := Task.id))

/-- Tasks with the same id in a duplicate-free task list are equal. -/
theorem task_id_injective {tasks : List Task} (hnd : distinctTaskIds tasks)
    {u v : Task} (hu : u ∈ tasks) (hv : v ∈ tasks) (h : u.id = v.id) : u = v :=
  List.inj_on_of_nodup_map hnd hu hv h

/-- Where the blocks of one floating task `t` come from: the sorted task
list splits around `t`, no block with `t`'s id exists before `t` is
processed, `t`'s own processing appends exactly the blocks `tail`, and
after the whole fold the blocks carrying `t`'s id are exactly `tail`;
`overloadedTasks` and `warnings` entries present after `t`'s step
survive to the end of the fold. -/
theorem fold_task_contribution (genId : Nat → String) (evs : List FixedEvent)
    (cfg : SchedulerConfig) (now ped : Int) {tasks : List Task} {t : Task}
    (hnd : distinctTaskIds tasks) (hmem : t ∈ tasks) (hfloat : t.scheduledStart = none) :
    ∃ (l1 l2 : List Task) (stB : SchedState) (tail : List ScheduledBlock),
      stableSortByKey (fun u => -(calculateTaskScore now u))
          (tasks.filter (fun u => u.scheduledStart.isNone)) = l1 ++ t :: l2
      ∧ stB = l1.foldl (processTask genId evs cfg now ped)
          (schedulePinned genId tasks
            { blocks := [], overloadedTasks := [], warnings := []
              scheduledTaskIds := [], velocity := [], nextId := 0 })
      ∧ stB.blocks.filter (fun b => b.taskId == t.id) = []
      ∧ (processTask genId evs cfg now ped stB t).blocks = stB.blocks ++ tail
      ∧ (∀ b ∈ tail, b.taskId = t.id)
      ∧ ((stableSortByKey (fun u => -(calculateTaskScore now u))
            (tasks.filter (fun u => u.scheduledStart.isNone))).foldl
            (processTask genId evs cfg now ped)
            (schedulePinned genId tasks
              { blocks := [], overloadedTasks := [], warnings := []
                scheduledTaskIds := [], velocity := [], nextId := 0 })).blocks.filter
          (fun b => b.taskId == t.id) = tail
      ∧ (∀ x ∈ (processTask genId evs cfg now ped stB t).overloadedTasks,
          x ∈ ((stableSortByKey (fun u => -(calculateTaskScore now u))
            (tasks.filter (fun u => u.scheduledStart.isNone))).foldl
            (processTask genId evs cfg now ped)
            (schedulePinned genId tasks
              { blocks := [], overloadedTasks := [], warnings := []
                scheduledTaskIds := [], velocity := [], nextId := 0 })).overloadedTasks)
      ∧ (∀ w ∈ (processTask genId evs cfg now ped stB t).warnings,
          w ∈ ((stableSortByKey (fun u => -(calculateTaskScore now u))
            (tasks.filter (fun u => u.scheduledStart.isNone))).foldl
            (processTask genId evs cfg now ped)
            (schedulePinned genId tasks
              { blocks := [], overloadedTasks := [], warnings := []
                scheduledTaskIds := [], velocity := [], nextId := 0 })).warnings) := by
  have hsmem := @sortedTasks_mem now _ _ hmem hfloat
  obtain ⟨l1, l2, hsplit⟩ := List.append_of_mem hsmem
  have hsnodup := @sortedTasks_nodup now _ hnd
  rw [hsplit] at hsnodup
  rw [List.map_append, List.map_cons] at hsnodup
  have hdisj := (List.nodup_append.mp hsnodup).2.2
  have hnotl1 : t.id ∉ l1.map Task.id := fun hc => hdisj hc (List.mem_cons_self _ _)
  have hnotl2 : t.id ∉ l2.map Task.id :=
    (List.nodup_cons.mp (List.nodup_append.mp hsnodup).2.1).1
  set st0 : SchedState :=
    { blocks := [], overloadedTasks := [], warnings := []
      scheduledTaskIds := [], velocity := [], nextId := 0 } with hst0
  set st1 := schedulePinned genId tasks st0 with hst1
  set stB := l1.foldl (processTask genId evs cfg now ped) st1 with hstB
  -- no block with t's id exists before t is processed
  have hst1f : st1.blocks.filter (fun b => b.taskId == t.id) = [] := by
    obtain ⟨ptail, pidt, hpb, -, hpprop, -⟩ := schedulePinned_spec genId tasks st0
    rw [hst1, hpb]
    have : st0.blocks = [] := rfl
    rw [this, List.nil_append, List.filter_eq_nil_iff]
    intro b hb
    obtain ⟨u, hu, hid, hpin⟩ := hpprop b hb
    simp only [beq_iff_eq]
    rw [hid]
    intro huid
    exact hpin ((task_id_injective hnd hu hmem huid) ▸ hfloat)
  have hstBf : stB.blocks.filter (fun b => b.taskId == t.id) = [] := by
    rw [hstB, processTask_fold_filter_stable genId evs cfg now ped l1 st1 t.id hnotl1, hst1f]
  -- t's own step
  obtain ⟨tail, wtail, hbl, hbid, -, -, -⟩ :=
    processTask_spec (rfl : processTask genId evs cfg now ped stB t = _)
  set stC := processTask genId evs cfg now ped stB t with hstC
  have hstCf : stC.blocks.filter (fun b => b.taskId == t.id) = tail := by
    rw [hbl, List.filter_append, hstBf, List.nil_append, List.filter_eq_self.mpr]
    intro b hb
    simp [hbid b hb]
  -- the whole fold
  have hfold : (stableSortByKey (fun u => -(calculateTaskScore now u))
      (tasks.filter (fun u => u.scheduledStart.isNone))).foldl
        (processTask genId evs cfg now ped) st1
      = l2.foldl (processTask genId evs cfg now ped) stC := by
    rw [hsplit, List.foldl_append, List.foldl_cons]
  refine ⟨l1, l2, stB, tail, hsplit, rfl, hstBf, hbl, hbid, ?_, ?_, ?_⟩
  · rw [hfold, processTask_fold_filter_stable genId evs cfg now ped l2 stC t.id hnotl2, hstCf]
  · intro x hx
    rw [hfold]
    obtain ⟨-, -, otail, -, -, -, ho, -, -⟩ := processTask_fold_mono genId evs cfg now ped l2 stC
    rw [ho]
    exact List.mem_append_left _ hx
  · intro w hw
    rw [hfold]
    obtain ⟨-, -, -, wt, -, -, -, hwe, -⟩ := processTask_fold_mono genId evs cfg now ped l2 stC
    rw [hwe]
    exact List.mem_append_left _ hw

/-- The floating-task fold preserves the pairing between
`overloadedTasks` and the Overloaded warnings. -/
theorem processTask_fold_pairing (genId : Nat → String) (evs : List FixedEvent)
    (cfg : SchedulerConfig) (now ped : Int) :
    ∀ (ts : List Task) (st : SchedState),
      st.overloadedTasks.map (fun t => some t.id)
          = (st.warnings.filter (fun w => w.type == WarningType.overloaded)).map
              (fun w => w.taskId) →
      (ts.foldl (processTask genId evs cfg now ped) st).overloadedTasks.map (fun t => some t.id)
          = ((ts.foldl (processTask genId evs cfg now ped) st).warnings.filter
              (fun w => w.type == WarningType.overloaded)).map (fun w => w.taskId) := by
  intro ts
  induction ts with
  | nil => intro st h; exact h
  | cons t rest ih =>
    intro st h
    rw [List.foldl_cons]
    apply ih
    obtain ⟨tail, wtail, hbl, hbid, hws, hwid, htri⟩ :=
      processTask_spec (rfl : processTask genId evs cfg now ped st t = _)
    rcases htri with ⟨hst, -, -, -⟩ | ⟨-, hov, -, -, -, hfil⟩ | ⟨-, hov, -, -, hfil⟩
    · rw [hst]; exact h
    · rw [hov, hws, List.filter_append, hfil, List.append_nil]; exact h
    · rw [hov, hws, List.filter_append, hfil]
      simp only [List.map_append, List.map_cons, List.map_nil]
      rw [h]

/-- Claim C3 (amended): overload handling is all-or-nothing only in its
bookkeeping, not in its placement: an item appears in `overloaded`
exactly as often as an `Overloaded` warning carrying its id appears in
`warnings` (in the same order), and an item whose chunks all place gets
neither; but chunks of an overloaded item that did place are NOT removed
from the output (claim C3's "no partial chunks" clause fails, see the
counterexample). -/
theorem C3_overloaded_iff_warning (now : Int) (genId : Nat → String)
    (fixedEvents : List FixedEvent) (tasks : List Task) (config : SchedulerConfig) :
    (generateSchedule now genId fixedEvents tasks config).overloadedTasks.map
        (fun t => some t.id)
      = ((generateSchedule now genId fixedEvents tasks config).warnings.filter
          (fun w => w.type == WarningType.overloaded)).map (fun w => w.taskId) := by
  unfold generateSchedule
  dsimp only
  rw [List.filter_append]
  have hanti : (antiCramWarnings
      (stableSortByKey (fun t => -(calculateTaskScore now t))
        (tasks.filter (fun t => t.scheduledStart.isNone)))
      ((stableSortByKey (fun t => -(calculateTaskScore now t))
        (tasks.filter (fun t => t.scheduledStart.isNone))).foldl
          (processTask genId fixedEvents config now
            (addMinutes now (config.planningHorizonDays * 24 * 60)))
          (schedulePinned genId tasks
            { blocks := [], overloadedTasks := [], warnings := []
              scheduledTaskIds := [], velocity := [], nextId := 0 })).blocks).filter
      (fun w => w.type == WarningType.overloaded) = [] := by
    rw [List.filter_eq_nil_iff]
    intro w hw
    have := antiCramWarnings_types _ _ w hw
    simp [this]
  rw [hanti, List.append_nil]
  apply processTask_fold_pairing
  obtain ⟨ho, hw, -⟩ := schedulePinned_unchanged genId tasks
    { blocks := [], overloadedTasks := [], warnings := []
      scheduledTaskIds := [], velocity := [], nextId := 0 }
  rw [ho, hw]
  rfl

/-- Claim C1 counterexample: the source `generateSchedule(fixedEvents,
tasks, config)` consults the ambient wall clock, not an injected `now`
parameter.  With identical occupations, items and configuration, and
even an identical identifier stream, two invocations at different clock
readings (Monday 00:00 vs Tuesday 00:00) place the same item at
different instants, so the outputs differ beyond identifier
normalisation; `generateId` itself also differs with the clock. -/
theorem C1_counterexample :
    generateSchedule 5760 idStream [] c1Tasks DEFAULT_CONFIG
        ≠ generateSchedule 7200 idStream [] c1Tasks DEFAULT_CONFIG
      ∧ generateId 5760 "r" ≠ generateId 7200 "r" := by
  decide

/-- Claim C1 (amended): the core never aborts and is deterministic once
the ambient effects are fixed: for one clock reading `now` and one
identifier stream `genId`, identical `(fixedEvents, tasks, config)`
always produce the identical result, block ordering included. -/
theorem C1_deterministic (now : Int) (genId : Nat → String) (fixedEvents : List FixedEvent)
    (tasks : List Task) (config : SchedulerConfig) :
    generateSchedule now genId fixedEvents tasks config
      = generateSchedule now genId fixedEvents tasks config := rfl

/-- Claim C2 counterexample: two items pinned at the same instant are
laid down with no collision check, so the output contains two blocks on
the same local date with identical, overlapping intervals. -/
theorem C2_counterexample :
    ¬ noCollision [] (generateSchedule 5760 idStream [] c2Tasks DEFAULT_CONFIG) := by
  decide

/-- Claim C3 counterexample: a 180-minute splittable item with a Monday
deadline and only one free 90-minute gap gets its first chunk placed and
its second chunk fails; the item is reported overloaded, yet the placed
partial chunk stays in the output. -/
theorem C3_counterexample :
    (generateSchedule 5760 idStream c3Events c3Tasks DEFAULT_CONFIG).overloadedTasks.map Task.id
        = ["t"]
      ∧ ∃ b ∈ (generateSchedule 5760 idStream c3Events c3Tasks DEFAULT_CONFIG).scheduledBlocks,
          b.taskId = "t" := by
  decide

/-- Claim C4 counterexample: with a nested occupation (10:00-11:00
inside 09:00-12:00) the sweep sets its cursor back to the inner `end`
and re-opens covered time: `findGapsInDay` returns a gap overlapping the
outer occupation. -/
theorem C4_counterexample :
    ∃ gp ∈ findGapsInDay 5760 c4Events [] DEFAULT_CONFIG, ∃ ev ∈ c4Events,
      sameLocalDate ev.start 5760 ∧ ¬ disjointIntervals gp.start gp.endT ev.start ev.endT := by
  decide

/-- Claim C5 counterexample: a 181-minute splittable item is chunked as
90 + 90 + 1; all chunks place (the item is not overloaded), and the last
block is 1 minute long, outside the claimed [30, 120] range — the
declared 30-minute minimum chunk size is never enforced. -/
theorem C5_counterexample :
    (generateSchedule 5760 idStream [] c5Tasks DEFAULT_CONFIG).overloadedTasks = []
      ∧ ∃ b ∈ (generateSchedule 5760 idStream [] c5Tasks DEFAULT_CONFIG).scheduledBlocks,
          b.taskId = "t" ∧ b.durationMinutes < 30 := by
  decide

/-- Claim C6 counterexample: item A is pinned at Tuesday 10:00 and item
B depends on A; both are placed, but B is placed Monday 08:00, before
every block of A — the dependency gate orders processing, not time. -/
theorem C6_counterexample :
    ∃ bA ∈ (generateSchedule 5760 idStream [] c6Tasks DEFAULT_CONFIG).scheduledBlocks,
      bA.taskId = "A" ∧
        ∃ bB ∈ (generateSchedule 5760 idStream [] c6Tasks DEFAULT_CONFIG).scheduledBlocks,
          bB.taskId = "B" ∧ bB.start < bA.start := by
  decide

/-- Claim C7 counterexample: a non-assignment item pinned at Monday
18:00 yields a block whose start-hour (18) is past
`family_time_start_hour` (17.5), and the output carries no warning at
all — pinned placements bypass the family-time discipline. -/
theorem C7_counterexample :
    (∃ b ∈ (generateSchedule 5760 idStream [] c7Tasks DEFAULT_CONFIG).scheduledBlocks,
        DEFAULT_CONFIG.familyTimeStartHour ≤ getDecimalHour b.start)
      ∧ (generateSchedule 5760 idStream [] c7Tasks DEFAULT_CONFIG).warnings = [] := by
  decide

/-- Claim C8 counterexample: four items pinned on the same Monday all
carry goal "g"; pinned placement never consults the velocity counter,
so that (date, goal) pair receives four blocks although
`max_items_per_goal_per_day` is 3. -/
theorem C8_counterexample :
    ((goalDayBlocks c8Tasks
        (generateSchedule 5760 idStream [] c8Tasks DEFAULT_CONFIG).scheduledBlocks
        5760 "g").length : Int)
      > DEFAULT_CONFIG.maxTasksPerGoalPerDay := by
  decide

/-- Claim C10 counterexample: a split-eligible item (can_split, 60
minutes, deadline Monday 23:59) pinned on its deadline date yields its
single block on the deadline's local date, yet no AntiCrammingViolated
warning is emitted — the audit only scans the sorted floating tasks. -/
theorem C10_counterexample :
    (∃ b ∈ (generateSchedule 5760 idStream [] c10Tasks DEFAULT_CONFIG).scheduledBlocks,
        b.taskId = "p" ∧ sameLocalDate b.start 7199)
      ∧ (generateSchedule 5760 idStream [] c10Tasks DEFAULT_CONFIG).warnings = [] := by
  decide

/-- Pass 1 records only ids of input tasks, each with a block. -/
theorem schedulePinned_placedIdsBacked (genId : Nat → String) (tasks : List Task) :
    placedIdsBacked tasks (schedulePinned genId tasks
      { blocks := [], overloadedTasks := [], warnings := []
        scheduledTaskIds := [], velocity := [], nextId := 0 }) := by
  obtain ⟨tail, idt, hb, hi, hbp, hip⟩ := schedulePinned_spec genId tasks
    { blocks := [], overloadedTasks := [], warnings := []
      scheduledTaskIds := [], velocity := [], nextId := 0 }
  intro i hi1
  rw [hi] at hi1
  simp only [List.nil_append] at hi1
  obtain ⟨u, hu, huid, -, b, hbt, hbid⟩ := hip i hi1
  refine ⟨⟨u, hu, huid⟩, b, ?_, hbid⟩
  rw [hb]
  exact List.mem_append_right _ hbt

/-- The floating-task fold preserves `placedIdsBacked` when it folds
over tasks drawn from the input list. -/
theorem fold_preserves_placedIdsBacked (genId : Nat → String) (evs : List FixedEvent)
    (cfg : SchedulerConfig) (now ped : Int) (tasks : List Task) :
    ∀ (ts : List Task) (st : SchedState), (∀ u ∈ ts, u ∈ tasks) →
      placedIdsBacked tasks st →
      placedIdsBacked tasks (ts.foldl (processTask genId evs cfg now ped) st) := by
  intro ts
  induction ts with
  | nil => intro st _ h; exact h
  | cons t rest ih =>
    intro st hsub hinv
    rw [List.foldl_cons]
    refine ih _ (fun u hu => hsub u (List.mem_cons_of_mem _ hu)) ?_
    obtain ⟨tail, wtail, hbl, hbid, -, -, htri⟩ :=
      processTask_spec (rfl : processTask genId evs cfg now ped st t = _)
    rcases htri with ⟨hst, -, -, -⟩ | ⟨-, -, hids, hmapd, -, -⟩ | ⟨-, -, hids, -, -⟩
    · rw [hst]; exact hinv
    · intro i hi
      rw [hids] at hi
      rcases List.mem_append.mp hi with hi | hi
      · obtain ⟨h1, b, hb, h2⟩ := hinv i hi
        exact ⟨h1, b, by rw [hbl]; exact List.mem_append_left _ hb, h2⟩
      · simp only [List.mem_singleton] at hi
        subst hi
        have htne : tail ≠ [] := by
          intro hc
          rw [hc] at hmapd
          exact splitTaskIntoChunks_ne_nil t now (List.map_eq_nil_iff.mp hmapd.symm)
        obtain ⟨b, hb⟩ := List.exists_mem_of_ne_nil tail htne
        exact ⟨⟨t, hsub t (List.mem_cons_self _ _), rfl⟩,
          b, by rw [hbl]; exact List.mem_append_right _ hb, hbid b hb⟩
    · intro i hi
      rw [hids] at hi
      obtain ⟨h1, b, hb, h2⟩ := hinv i hi
      exact ⟨h1, b, by rw [hbl]; exact List.mem_append_left _ hb, h2⟩

/-- Claim C6 (amended): the dependency gate guarantees only processing
order, not temporal order: if a floating item B with dependencies has
any placed block, then every id in B's depends_on names an input task
that itself has at least one placed block; nothing forces A's blocks to
start before B's (see the counterexample), and a pinned B would bypass
the gate entirely. -/
theorem C6_dependency_gate (now : Int) (genId : Nat → String)
    (fixedEvents : List FixedEvent) (tasks : List Task) (config : SchedulerConfig) (B : Task)
    (hnd : distinctTaskIds tasks) (hmem : B ∈ tasks) (hfloat : B.scheduledStart = none)
    (hplaced : (generateSchedule now genId fixedEvents tasks config).scheduledBlocks.filter
        (fun b => b.taskId == B.id) ≠ []) :
    ∀ d ∈ B.dependsOn, ∃ u ∈ tasks, u.id = d
      ∧ ∃ b ∈ (generateSchedule now genId fixedEvents tasks config).scheduledBlocks,
          b.taskId = d := by
  obtain ⟨l1, l2, stB, tail, hsplit, hstB, hstBf, hbl, hbid, hst2f, hovsub, hwsub⟩ :=
    fold_task_contribution genId fixedEvents config now
      (addMinutes now (config.planningHorizonDays * 24 * 60)) hnd hmem hfloat
  have hresb : (generateSchedule now genId fixedEvents tasks config).scheduledBlocks
      = stableSortByKey (fun b => b.start)
        ((stableSortByKey (fun u => -(calculateTaskScore now u))
          (tasks.filter (fun u => u.scheduledStart.isNone))).foldl
          (processTask genId fixedEvents config now
            (addMinutes now (config.planningHorizonDays * 24 * 60)))
          (schedulePinned genId tasks
            { blocks := [], overloadedTasks := [], warnings := []
              scheduledTaskIds := [], velocity := [], nextId := 0 })).blocks := rfl
  have hpermf : ((generateSchedule now genId fixedEvents tasks config).scheduledBlocks.filter
      (fun b => b.taskId == B.id)).Perm tail := by
    rw [hresb, ← hst2f]
    exact (stableSortByKey_perm _ _).filter _
  have htne : tail ≠ [] := by
    intro hc
    rw [hc] at hpermf
    exact hplaced (List.Perm.eq_nil hpermf)
  obtain ⟨tail2, wtail2, hbl2, -, -, -, htri⟩ :=
    processTask_spec (rfl : processTask genId fixedEvents config now
      (addMinutes now (config.planningHorizonDays * 24 * 60)) stB B = _)
  have htt : tail = tail2 := List.append_cancel_left (hbl.symm.trans hbl2)
  subst htt
  have hdeps : ∀ d ∈ B.dependsOn, stB.scheduledTaskIds.contains d = true := by
    rcases htri with ⟨-, htail, -, -⟩ | ⟨hd, -, -, -, -, -⟩ | ⟨hd, -, -, -, -⟩
    · exact absurd htail htne
    · exact hd
    · exact hd
  have hinvB : placedIdsBacked tasks stB := by
    rw [hstB]
    refine fold_preserves_placedIdsBacked genId fixedEvents config now
      (addMinutes now (config.planningHorizonDays * 24 * 60)) tasks l1 _ ?_
      (schedulePinned_placedIdsBacked genId tasks)
    intro u hu
    have : u ∈ stableSortByKey (fun u => -(calculateTaskScore now u))
        (tasks.filter (fun u => u.scheduledStart.isNone)) := by
      rw [hsplit]
      exact List.mem_append_left _ hu
    rw [mem_stableSortByKey] at this
    exact (List.mem_filter.mp this).1
  intro d hd
  have hdm : d ∈ stB.scheduledTaskIds := by
    have := hdeps d hd
    simpa using this
  obtain ⟨⟨u, hu, huid⟩, b, hbst, hbid1⟩ := hinvB d hdm
  refine ⟨u, hu, huid, b, ?_, hbid1⟩
  rw [hresb, mem_stableSortByKey]
  have hfold : (stableSortByKey (fun u => -(calculateTaskScore now u))
      (tasks.filter (fun u => u.scheduledStart.isNone))).foldl
        (processTask genId fixedEvents config now
          (addMinutes now (config.planningHorizonDays * 24 * 60)))
        (schedulePinned genId tasks
          { blocks := [], overloadedTasks := [], warnings := []
            scheduledTaskIds := [], velocity := [], nextId := 0 })
      = l2.foldl (processTask genId fixedEvents config now
          (addMinutes now (config.planningHorizonDays * 24 * 60)))
        (processTask genId fixedEvents config now
          (addMinutes now (config.planningHorizonDays * 24 * 60)) stB B) := by
    rw [hsplit, List.foldl_append, List.foldl_cons, ← hstB]
  rw [hfold]
  obtain ⟨tl, -, -, -, hb2, -, -, -, -⟩ := processTask_fold_mono genId fixedEvents config now
    (addMinutes now (config.planningHorizonDays * 24 * 60)) l2
    (processTask genId fixedEvents config now
      (addMinutes now (config.planningHorizonDays * 24 * 60)) stB B)
  rw [hb2, hbl]
  exact List.mem_append_left _ (List.mem_append_left _ hbst)

/-- Claim C5 (amended): for every floating item with distinct ids that
is neither overloaded nor unplaced, the placed-block durations sum
exactly to the item's `durationMinutes`; a split item's blocks each last
at most 90 minutes — but the declared 30-minute minimum is NOT enforced
(only positivity holds, see the counterexample) — and an unsplit item
yields exactly one block of its full duration. -/
theorem C5_chunk_accounting (now : Int) (genId : Nat → String)
    (fixedEvents : List FixedEvent) (tasks : List Task) (config : SchedulerConfig) (t : Task)
    (hnd : distinctTaskIds tasks) (hmem : t ∈ tasks) (hfloat : t.scheduledStart = none)
    (hnov : t ∉ (generateSchedule now genId fixedEvents tasks config).overloadedTasks)
    (hplaced : (generateSchedule now genId fixedEvents tasks config).scheduledBlocks.filter
        (fun b => b.taskId == t.id) ≠ []) :
    (((generateSchedule now genId fixedEvents tasks config).scheduledBlocks.filter
        (fun b => b.taskId == t.id)).map (fun b => b.durationMinutes)).sum = t.durationMinutes
    ∧ (120 < t.durationMinutes → t.canSplit = true →
        ∀ b ∈ (generateSchedule now genId fixedEvents tasks config).scheduledBlocks.filter
            (fun b => b.taskId == t.id),
          0 < b.durationMinutes ∧ b.durationMinutes ≤ 90)
    ∧ (t.durationMinutes ≤ 120 ∨ t.canSplit = false →
        ∃ b, (generateSchedule now genId fixedEvents tasks config).scheduledBlocks.filter
            (fun b => b.taskId == t.id) = [b]
          ∧ b.durationMinutes = t.durationMinutes) := by
  obtain ⟨l1, l2, stB, tail, hsplit, hstB, hstBf, hbl, hbid, hst2f, hovsub, hwsub⟩ :=
    fold_task_contribution genId fixedEvents config now
      (addMinutes now (config.planningHorizonDays * 24 * 60)) hnd hmem hfloat
  have hresb : (generateSchedule now genId fixedEvents tasks config).scheduledBlocks
      = stableSortByKey (fun b => b.start)
        ((stableSortByKey (fun u => -(calculateTaskScore now u))
          (tasks.filter (fun u => u.scheduledStart.isNone))).foldl
          (processTask genId fixedEvents config now
            (addMinutes now (config.planningHorizonDays * 24 * 60)))
          (schedulePinned genId tasks
            { blocks := [], overloadedTasks := [], warnings := []
              scheduledTaskIds := [], velocity := [], nextId := 0 })).blocks := rfl
  have hreso : (generateSchedule now genId fixedEvents tasks config).overloadedTasks
      = ((stableSortByKey (fun u => -(calculateTaskScore now u))
          (tasks.filter (fun u => u.scheduledStart.isNone))).foldl
          (processTask genId fixedEvents config now
            (addMinutes now (config.planningHorizonDays * 24 * 60)))
          (schedulePinned genId tasks
            { blocks := [], overloadedTasks := [], warnings := []
              scheduledTaskIds := [], velocity := [], nextId := 0 })).overloadedTasks := rfl
  have hpermf : ((generateSchedule now genId fixedEvents tasks config).scheduledBlocks.filter
      (fun b => b.taskId == t.id)).Perm tail := by
    rw [hresb, ← hst2f]
    exact (stableSortByKey_perm _ _).filter _
  obtain ⟨tail2, wtail2, hbl2, hbid2, -, -, htri⟩ :=
    processTask_spec (rfl : processTask genId fixedEvents config now
      (addMinutes now (config.planningHorizonDays * 24 * 60)) stB t = _)
  have htt : tail = tail2 := List.append_cancel_left (hbl.symm.trans hbl2)
  subst htt
  rcases htri with ⟨-, htail, -, -⟩ | ⟨-, -, -, hmapd, -, -⟩ | ⟨-, hovC, -, -, -⟩
  · exact absurd (List.Perm.eq_nil (htail ▸ hpermf)) hplaced
  · -- all chunks placed
    have hsum : (((generateSchedule now genId fixedEvents tasks config).scheduledBlocks.filter
        (fun b => b.taskId == t.id)).map (fun b => b.durationMinutes)).sum = t.durationMinutes := by
      rw [(hpermf.map (fun b => b.durationMinutes)).sum_eq, hmapd]
      exact splitTaskIntoChunks_sum t now
    refine ⟨hsum, ?_, ?_⟩
    · intro hbig hcs b hb
      have hbt : b ∈ tail := hpermf.mem_iff.mp hb
      have hbd : b.durationMinutes ∈ (splitTaskIntoChunks t now).map
          (fun c => c.durationMinutes) := by
        rw [← hmapd]
        exact List.mem_map_of_mem _ hbt
      obtain ⟨c, hc, hcd⟩ := List.mem_map.mp hbd
      have := (splitTaskIntoChunks_split hbig hcs).2 c hc
      omega
    · intro huns
      obtain ⟨c, hcs, hcd, -, -⟩ := @splitTaskIntoChunks_unsplit _ now huns
      rw [hcs] at hmapd
      simp only [List.map_cons, List.map_nil] at hmapd
      obtain ⟨b0, hb0⟩ := List.length_eq_one.mp (by
        have := congrArg List.length hmapd
        simpa using this)
      rw [hb0] at hmapd
      simp only [List.map_cons, List.map_nil] at hmapd
      have hb0d : b0.durationMinutes = t.durationMinutes :=
        (List.cons_eq_cons.mp hmapd).1.trans hcd
      exact ⟨b0, List.perm_singleton.mp (hb0 ▸ hpermf), hb0d⟩
  · -- t overloaded: contradiction
    exfalso
    apply hnov
    rw [hreso]
    apply hovsub
    rw [hovC]
    exact List.mem_append_right _ (List.mem_cons_self _ _)

/-- The audit fold only ever appends. -/
theorem antiCram_foldl_prefix (blocks : List ScheduledBlock) :
    ∀ (l : List Task) (acc : List ScheduleWarning),
      ∃ rest, l.foldl (antiCramStep blocks) acc = acc ++ rest := by
  intro l
  induction l with
  | nil => intro acc; exact ⟨[], by simp⟩
  | cons t ts ih =>
    intro acc
    have hstep : ∃ s, antiCramStep blocks acc t = acc ++ s := by
      unfold antiCramStep
      split
      · split
        · dsimp only
          split
          · exact ⟨_, rfl⟩
          · exact ⟨[], by simp⟩
        · exact ⟨[], by simp⟩
      · exact ⟨[], by simp⟩
    obtain ⟨s, hs⟩ := hstep
    obtain ⟨rest2, hr⟩ := ih (antiCramStep blocks acc t)
    rw [List.foldl_cons, hr, hs, List.append_assoc]
    exact ⟨s ++ rest2, rfl⟩

/-- If a task of the audited list satisfies the cramming test against
the blocks, the audit emits an AntiCrammingViolated warning for it. -/
theorem antiCramWarnings_mem (blocks : List ScheduledBlock) {ts : List Task} {t : Task}
    {dl : Int} (hmem : t ∈ ts) (hdl : t.deadline = some dl) (hcs : t.canSplit = true)
    (hpos : 0 < (blocks.filter (fun b => b.taskId == t.id)).foldl
        (fun s b => s + b.durationMinutes) (0 : Int))
    (hcram : (blocks.filter (fun b => b.taskId == t.id)).foldl
        (fun s b => s + b.durationMinutes) (0 : Int)
      < 2 * (((blocks.filter (fun b => b.taskId == t.id)).filter
          (fun b => startOfDay b.start == startOfDay dl)).foldl
            (fun s b => s + b.durationMinutes) (0 : Int))) :
    ∃ w ∈ antiCramWarnings ts blocks,
      w.type = WarningType.anti_cramming_violated ∧ w.taskId = some t.id := by
  suffices haux : ∀ (l : List Task) (acc : List ScheduleWarning), t ∈ l →
      ∃ w ∈ l.foldl (antiCramStep blocks) acc,
        w.type = WarningType.anti_cramming_violated ∧ w.taskId = some t.id by
    exact haux ts [] hmem
  intro l
  induction l with
  | nil => intro acc h; cases h
  | cons h1 rest ih =>
    intro acc hmem1
    rw [List.foldl_cons]
    rcases List.mem_cons.mp hmem1 with rfl | hrest
    · have hstep : antiCramStep blocks acc t = acc ++
          [{ type := WarningType.anti_cramming_violated
             message := "Task \"" ++ t.title ++ "\" >50% on due date"
             taskId := some t.id }] := by
        unfold antiCramStep
        rw [hdl]
        simp only [hcs, if_true]
        rw [if_pos ⟨hpos, hcram⟩]
      obtain ⟨rest2, hr⟩ := antiCram_foldl_prefix blocks rest (antiCramStep blocks acc t)
      rw [hr, hstep]
      refine ⟨{ type := WarningType.anti_cramming_violated
                message := "Task \"" ++ t.title ++ "\" >50% on due date"
                taskId := some t.id }, ?_, rfl, rfl⟩
      rw [List.append_assoc]
      exact List.mem_append_right _ (List.mem_append_left _ (List.mem_singleton.mpr rfl))
    · exact ih _ hrest

/-- Claim C10 (amended): the anti-cramming audit keys on the can_split
flag, not on an actual split — but only for FLOATING items: for every
non-pinned split-eligible item with distinct ids, positive duration at
most 120 minutes (hence a single chunk, never actually split) and a
deadline, if its single placed block lands on the deadline's local date
then an AntiCrammingViolated warning for the item is emitted.  A pinned
item in the same situation gets no warning (see the counterexample). -/
theorem C10_anti_cramming_audit (now : Int) (genId : Nat → String)
    (fixedEvents : List FixedEvent) (tasks : List Task) (config : SchedulerConfig)
    (t : Task) (dl : Int)
    (hnd : distinctTaskIds tasks) (hmem : t ∈ tasks) (hfloat : t.scheduledStart = none)
    (hcs : t.canSplit = true) (hdl : t.deadline = some dl)
    (hdur : t.durationMinutes ≤ 120) (hpos : 0 < t.durationMinutes)
    (hblock : ∃ b ∈ (generateSchedule now genId fixedEvents tasks config).scheduledBlocks,
        b.taskId = t.id ∧ sameLocalDate b.start dl) :
    ∃ w ∈ (generateSchedule now genId fixedEvents tasks config).warnings,
      w.type = WarningType.anti_cramming_violated ∧ w.taskId = some t.id := by
  obtain ⟨l1, l2, stB, tail, hsplit, hstB, hstBf, hbl, hbid, hst2f, hovsub, hwsub⟩ :=
    fold_task_contribution genId fixedEvents config now
      (addMinutes now (config.planningHorizonDays * 24 * 60)) hnd hmem hfloat
  have hresb : (generateSchedule now genId fixedEvents tasks config).scheduledBlocks
      = stableSortByKey (fun b => b.start)
        ((stableSortByKey (fun u => -(calculateTaskScore now u))
          (tasks.filter (fun u => u.scheduledStart.isNone))).foldl
          (processTask genId fixedEvents config now
            (addMinutes now (config.planningHorizonDays * 24 * 60)))
          (schedulePinned genId tasks
            { blocks := [], overloadedTasks := [], warnings := []
              scheduledTaskIds := [], velocity := [], nextId := 0 })).blocks := rfl
  have hresw : (generateSchedule now genId fixedEvents tasks config).warnings
      = ((stableSortByKey (fun u => -(calculateTaskScore now u))
          (tasks.filter (fun u => u.scheduledStart.isNone))).foldl
          (processTask genId fixedEvents config now
            (addMinutes now (config.planningHorizonDays * 24 * 60)))
          (schedulePinned genId tasks
            { blocks := [], overloadedTasks := [], warnings := []
              scheduledTaskIds := [], velocity := [], nextId := 0 })).warnings
        ++ antiCramWarnings
          (stableSortByKey (fun u => -(calculateTaskScore now u))
            (tasks.filter (fun u => u.scheduledStart.isNone)))
          ((stableSortByKey (fun u => -(calculateTaskScore now u))
            (tasks.filter (fun u => u.scheduledStart.isNone))).foldl
            (processTask genId fixedEvents config now
              (addMinutes now (config.planningHorizonDays * 24 * 60)))
            (schedulePinned genId tasks
              { blocks := [], overloadedTasks := [], warnings := []
                scheduledTaskIds := [], velocity := [], nextId := 0 })).blocks := rfl
  have hpermf : ((generateSchedule now genId fixedEvents tasks config).scheduledBlocks.filter
      (fun b => b.taskId == t.id)).Perm tail := by
    rw [hresb, ← hst2f]
    exact (stableSortByKey_perm _ _).filter _
  obtain ⟨b, hbmem, hbtid, hbdate⟩ := hblock
  have hbtail : b ∈ tail := by
    refine hpermf.mem_iff.mp (List.mem_filter.mpr ⟨hbmem, by simp [hbtid]⟩)
  obtain ⟨tail2, wtail2, hbl2, -, -, -, htri⟩ :=
    processTask_spec (rfl : processTask genId fixedEvents config now
      (addMinutes now (config.planningHorizonDays * 24 * 60)) stB t = _)
  have htt : tail = tail2 := List.append_cancel_left (hbl.symm.trans hbl2)
  subst htt
  obtain ⟨c, hcs1, hcd, -, -⟩ := @splitTaskIntoChunks_unsplit _ now (Or.inl hdur)
  rcases htri with ⟨-, htail, -, -⟩ | ⟨-, -, -, hmapd, -, -⟩ | ⟨-, -, -, hlen, -⟩
  · rw [htail] at hbtail; cases hbtail
  · -- all chunks placed: tail is the single full-duration block
    rw [hcs1] at hmapd
    simp only [List.map_cons, List.map_nil] at hmapd
    obtain ⟨b0, hb0⟩ := List.length_eq_one.mp (by
      have := congrArg List.length hmapd
      simpa using this)
    rw [hb0] at hmapd hbtail
    simp only [List.map_cons, List.map_nil] at hmapd
    have hb0d : b0.durationMinutes = t.durationMinutes :=
      (List.cons_eq_cons.mp hmapd).1.trans hcd
    have hbb0 : b = b0 := by simpa using hbtail
    subst hbb0
    have hfilter2 : ((stableSortByKey (fun u => -(calculateTaskScore now u))
        (tasks.filter (fun u => u.scheduledStart.isNone))).foldl
        (processTask genId fixedEvents config now
          (addMinutes now (config.planningHorizonDays * 24 * 60)))
        (schedulePinned genId tasks
          { blocks := [], overloadedTasks := [], warnings := []
            scheduledTaskIds := [], velocity := [], nextId := 0 })).blocks.filter
        (fun x => x.taskId == t.id) = [b] := by
      rw [hst2f, hb0]
    obtain ⟨w, hw, hwt, hwi⟩ := antiCramWarnings_mem
      ((stableSortByKey (fun u => -(calculateTaskScore now u))
        (tasks.filter (fun u => u.scheduledStart.isNone))).foldl
        (processTask genId fixedEvents config now
          (addMinutes now (config.planningHorizonDays * 24 * 60)))
        (schedulePinned genId tasks
          { blocks := [], overloadedTasks := [], warnings := []
            scheduledTaskIds := [], velocity := [], nextId := 0 })).blocks
      (@sortedTasks_mem now _ _ hmem hfloat) hdl hcs
      (by rw [hfilter2]; simpa [hb0d] using hpos)
      (by
        rw [hfilter2]
        have hbeq : (startOfDay b.start == startOfDay dl) = true := by
          simpa [sameLocalDate] using hbdate
        simp only [List.filter_cons, hbeq, if_true, eq_self_iff_true, List.filter_nil,
          List.foldl_cons, List.foldl_nil]
        omega)
    refine ⟨w, ?_, hwt, hwi⟩
    rw [hresw]
    exact List.mem_append_right _ hw
  · -- overloaded case impossible: fewer blocks than the single chunk
    rw [hcs1] at hlen
    simp only [List.length_cons, List.length_nil] at hlen
    have htl : tail = [] := List.eq_nil_of_length_eq_zero (by omega)
    rw [htl] at hbtail
    cases hbtail

/-- Claim C5 witness: the amended chunk-accounting theorem applied to a
concrete 60-minute floating task on an empty Monday calendar. -/
theorem C5_chunk_accounting_witness :
    (distinctTaskIds wTasks
      ∧ mkTask "w" 60 ∈ wTasks
      ∧ (mkTask "w" 60).scheduledStart = none
      ∧ mkTask "w" 60 ∉ (generateSchedule 5760 idStream [] wTasks DEFAULT_CONFIG).overloadedTasks
      ∧ (generateSchedule 5760 idStream [] wTasks DEFAULT_CONFIG).scheduledBlocks.filter
          (fun b => b.taskId == (mkTask "w" 60).id) ≠ [])
    ∧ ((((generateSchedule 5760 idStream [] wTasks DEFAULT_CONFIG).scheduledBlocks.filter
        (fun b => b.taskId == (mkTask "w" 60).id)).map (fun b => b.durationMinutes)).sum
          = (mkTask "w" 60).durationMinutes
      ∧ (120 < (mkTask "w" 60).durationMinutes → (mkTask "w" 60).canSplit = true →
          ∀ b ∈ (generateSchedule 5760 idStream [] wTasks DEFAULT_CONFIG).scheduledBlocks.filter
              (fun b => b.taskId == (mkTask "w" 60).id),
            0 < b.durationMinutes ∧ b.durationMinutes ≤ 90)
      ∧ ((mkTask "w" 60).durationMinutes ≤ 120 ∨ (mkTask "w" 60).canSplit = false →
          ∃ b, (generateSchedule 5760 idStream [] wTasks DEFAULT_CONFIG).scheduledBlocks.filter
              (fun b => b.taskId == (mkTask "w" 60).id) = [b]
            ∧ b.durationMinutes = (mkTask "w" 60).durationMinutes)) :=
  ⟨⟨by decide, by decide, by decide, by decide, by decide⟩,
    C5_chunk_accounting 5760 idStream [] wTasks DEFAULT_CONFIG (mkTask "w" 60)
      (by decide) (by decide) (by decide) (by decide) (by decide)⟩

/-- Claim C6 witness: the amended dependency-gate theorem at a concrete
two-task scenario (floating A, floating B depending on A). -/
theorem C6_dependency_gate_witness :
    (distinctTaskIds c6wTasks
      ∧ { mkTask "B" 30 with dependsOn := ["A"] } ∈ c6wTasks
      ∧ ({ mkTask "B" 30 with dependsOn := ["A"] } : Task).scheduledStart = none
      ∧ (generateSchedule 5760 idStream [] c6wTasks DEFAULT_CONFIG).scheduledBlocks.filter
          (fun b => b.taskId == ({ mkTask "B" 30 with dependsOn := ["A"] } : Task).id) ≠ [])
    ∧ ∀ d ∈ ({ mkTask "B" 30 with dependsOn := ["A"] } : Task).dependsOn,
        ∃ u ∈ c6wTasks, u.id = d
          ∧ ∃ b ∈ (generateSchedule 5760 idStream [] c6wTasks DEFAULT_CONFIG).scheduledBlocks,
              b.taskId = d :=
  ⟨⟨by decide, by decide, by decide, by decide⟩,
    C6_dependency_gate 5760 idStream [] c6wTasks DEFAULT_CONFIG
      { mkTask "B" 30 with dependsOn := ["A"] }
      (by decide) (by decide) (by decide) (by decide)⟩

/-- Claim C10 witness: the amended audit theorem at a concrete floating
splittable 60-minute task placed on its deadline date. -/
theorem C10_anti_cramming_audit_witness :
    (distinctTaskIds c10wTasks
      ∧ { mkTask "w10" 60 with canSplit := true, deadline := some 7199 } ∈ c10wTasks
      ∧ ({ mkTask "w10" 60 with canSplit := true, deadline := some 7199 } : Task).scheduledStart
          = none
      ∧ ({ mkTask "w10" 60 with canSplit := true, deadline := some 7199 } : Task).canSplit = true
      ∧ ({ mkTask "w10" 60 with canSplit := true, deadline := some 7199 } : Task).deadline
          = some 7199
      ∧ ({ mkTask "w10" 60 with canSplit := true, deadline := some 7199 } : Task).durationMinutes
          ≤ 120
      ∧ 0 < ({ mkTask "w10" 60 with canSplit := true, deadline := some 7199 } : Task).durationMinutes
      ∧ (∃ b ∈ (generateSchedule 5760 idStream [] c10wTasks DEFAULT_CONFIG).scheduledBlocks,
          b.taskId = ({ mkTask "w10" 60 with canSplit := true, deadline := some 7199 } : Task).id
            ∧ sameLocalDate b.start 7199))
    ∧ ∃ w ∈ (generateSchedule 5760 idStream [] c10wTasks DEFAULT_CONFIG).warnings,
        w.type = WarningType.anti_cramming_violated
          ∧ w.taskId = some ({ mkTask "w10" 60 with canSplit := true, deadline := some 7199 } : Task).id :=
  ⟨⟨by decide, by decide, by decide, by decide, by decide, by decide, by decide, by decide⟩,
    C10_anti_cramming_audit 5760 idStream [] c10wTasks DEFAULT_CONFIG
      { mkTask "w10" 60 with canSplit := true, deadline := some 7199 } 7199
      (by decide) (by decide) (by decide) (by decide) (by decide) (by decide) (by decide)
      (by decide)⟩

/-! ## Sweep geometry (claims C4, C2, C7, C8)

The source comment on `findGapsInDay` promises a `max`-advancing cursor;
the code advances to `busy.end` unconditionally.  For pairwise-disjoint
nonempty busy periods the two coincide, and the lemmas below prove the
gap geometry in that regime. -/

theorem insertSorted_sorted {α κ : Type} [LinearOrder κ] (k : α → κ) (x : α) :
    ∀ l : List α, List.Pairwise (fun a b => k a ≤ k b) l →
      List.Pairwise (fun a b => k a ≤ k b) (insertSorted k x l) := by
  intro l
  induction l with
  | nil => intro _; simp [insertSorted]
  | cons y ys ih =>
    intro h
    rw [List.pairwise_cons] at h
    obtain ⟨hy, hys⟩ := h
    simp only [insertSorted]
    split
    next hlt =>
      rw [List.pairwise_cons]
      refine ⟨?_, List.pairwise_cons.mpr ⟨hy, hys⟩⟩
      intro z hz
      rcases List.mem_cons.mp hz with rfl | hz
      · exact le_of_lt hlt
      · exact le_of_lt (lt_of_lt_of_le hlt (hy z hz))
    next hlt =>
      rw [List.pairwise_cons]
      refine ⟨?_, ih hys⟩
      intro z hz
      have hz2 := (insertSorted_perm k x ys).mem_iff.mp hz
      rcases List.mem_cons.mp hz2 with rfl | hz2
      · exact le_of_not_lt hlt
      · exact hy z hz2

theorem stableSortByKey_sorted {α κ : Type} [LinearOrder κ] (k : α → κ) (l : List α) :
    List.Pairwise (fun a b => k a ≤ k b) (stableSortByKey k l) := by
  suffices h : ∀ (l acc : List α), List.Pairwise (fun a b => k a ≤ k b) acc →
      List.Pairwise (fun a b => k a ≤ k b) (l.foldl (fun acc x => insertSorted k x acc) acc) by
    exact h l [] List.Pairwise.nil
  intro l
  induction l with
  | nil => intro acc h; simpa using h
  | cons x xs ih =>
    intro acc h
    rw [List.foldl_cons]
    exact ih _ (insertSorted_sorted k x acc h)

/-- Sorted-by-start, pairwise-disjoint, nonempty busy periods form a
chain: each ends no later than the next begins. -/
theorem sortedBusy_chain (busy : List (Int × Int))
    (hne : ∀ p ∈ busy, p.1 < p.2)
    (hdisj : List.Pairwise (fun a b : Int × Int => a.2 ≤ b.1 ∨ b.2 ≤ a.1) busy) :
    List.Pairwise (fun a b : Int × Int => a.2 ≤ b.1)
      (stableSortByKey (fun p : Int × Int => p.1) busy) := by
  have hperm := stableSortByKey_perm (fun p : Int × Int => p.1) busy
  have hs := stableSortByKey_sorted (fun p : Int × Int => p.1) busy
  have hd : List.Pairwise (fun a b : Int × Int => a.2 ≤ b.1 ∨ b.2 ≤ a.1)
      (stableSortByKey (fun p : Int × Int => p.1) busy) :=
    (hperm.pairwise_iff (fun h => h.symm)).mpr hdisj
  refine (hs.and hd).imp_of_mem ?_
  intro a b ha hb hab
  obtain ⟨hle, hd2⟩ := hab
  have hle2 : a.1 ≤ b.1 := hle
  rcases hd2 with h1 | h2
  · exact h1
  · exfalso
    have hbne := hne b (hperm.mem_iff.mp hb)
    omega

/-- Where the sweep's gaps come from: each gap is a nonempty interval
starting at the incoming cursor or at some busy end, ending at the
workday end or at some busy start. -/
theorem sweepGaps_origin (wend : Int) :
    ∀ (busy : List (Int × Int)) (cursor : Int), ∀ g ∈ sweepGaps wend busy cursor,
      g.start < g.endT
      ∧ g.durationMinutes = g.endT - g.start
      ∧ (g.start = cursor ∨ ∃ p ∈ busy, g.start = p.2)
      ∧ (g.endT = wend ∨ ∃ p ∈ busy, g.endT = p.1) := by
  intro busy
  induction busy with
  | nil =>
    intro cursor g hg
    simp only [sweepGaps] at hg
    split at hg
    next hcw =>
      split at hg
      next hpos =>
        simp only [List.mem_singleton] at hg
        subst hg
        exact ⟨hcw, rfl, Or.inl rfl, Or.inl rfl⟩
      next => cases hg
    next => cases hg
  | cons q rest ih =>
    obtain ⟨s, e⟩ := q
    intro cursor g hg
    simp only [sweepGaps] at hg
    rw [List.mem_append] at hg
    rcases hg with hg | hg
    · split at hg
      next hcs =>
        split at hg
        next hpos =>
          simp only [List.mem_singleton] at hg
          subst hg
          exact ⟨hcs, rfl, Or.inl rfl, Or.inr ⟨(s, e), List.mem_cons_self _ _, rfl⟩⟩
        next => cases hg
      next => cases hg
    · obtain ⟨h1, h2, h3, h4⟩ := ih e g hg
      refine ⟨h1, h2, ?_, ?_⟩
      · rcases h3 with h3 | ⟨p, hp, h3⟩
        · exact Or.inr ⟨(s, e), List.mem_cons_self _ _, h3⟩
        · exact Or.inr ⟨p, List.mem_cons_of_mem _ hp, h3⟩
      · rcases h4 with h4 | ⟨p, hp, h4⟩
        · exact Or.inl h4
        · exact Or.inr ⟨p, List.mem_cons_of_mem _ hp, h4⟩

/-- Under chained busy periods every gap of the sweep is disjoint from
every busy period. -/
theorem sweepGaps_disjoint (wend : Int) :
    ∀ (busy : List (Int × Int)) (cursor : Int),
      List.Pairwise (fun a b : Int × Int => a.2 ≤ b.1) busy →
      (∀ p ∈ busy, p.1 < p.2) →
      ∀ g ∈ sweepGaps wend busy cursor, ∀ p ∈ busy, g.endT ≤ p.1 ∨ p.2 ≤ g.start := by
  intro busy
  induction busy with
  | nil => intro cursor _ _ g hg p hp; cases hp
  | cons q rest ih =>
    obtain ⟨s, e⟩ := q
    intro cursor hchain hne g hg p hp
    rw [List.pairwise_cons] at hchain
    obtain ⟨hhead, htail⟩ := hchain
    simp only [sweepGaps] at hg
    rw [List.mem_append] at hg
    rcases hg with hg | hg
    · split at hg
      next hcs =>
        split at hg
        next hpos =>
          simp only [List.mem_singleton] at hg
          subst hg
          rcases List.mem_cons.mp hp with rfl | hp
          · left; exact le_refl s
          · left
            have hes : e ≤ p.1 := hhead p hp
            have hse : s < e := hne (s, e) (List.mem_cons_self _ _)
            show s ≤ p.1
            omega
        next => cases hg
      next => cases hg
    · rcases List.mem_cons.mp hp with rfl | hp
      · right
        obtain ⟨-, -, h3, -⟩ := sweepGaps_origin wend rest e g hg
        rcases h3 with h3 | ⟨p2, hp2, h3⟩
        · exact h3.ge
        · have h5 : e ≤ p2.1 := hhead p2 hp2
          have h6 : p2.1 < p2.2 := hne p2 (List.mem_cons_of_mem _ hp2)
          omega
      · exact ih e htail (fun r hr => hne r (List.mem_cons_of_mem _ hr)) g hg p hp

theorem hourToMinutes_nonneg {h : ℚ} (h0 : 0 ≤ h) : 0 ≤ hourToMinutes h := by
  unfold hourToMinutes
  apply Int.ediv_nonneg
  · exact mul_nonneg (Rat.num_nonneg.mpr h0) (by norm_num)
  · exact_mod_cast Nat.zero_le h.den

theorem hourToMinutes_lt {h : ℚ} (h24 : h < 24) : hourToMinutes h < 1440 := by
  unfold hourToMinutes
  have hden : (0 : Int) < (h.den : Int) := by exact_mod_cast h.den_pos
  have hdenQ : (0 : ℚ) < (h.den : ℚ) := by exact_mod_cast h.den_pos
  have hnum : h.num < 24 * (h.den : Int) := by
    have h2 : (h.num : ℚ) < 24 * (h.den : ℚ) := by
      rw [← Rat.num_div_den h] at h24
      exact (div_lt_iff₀ hdenQ).mp h24
    exact_mod_cast h2
  rw [Int.ediv_lt_iff_lt_mul hden]
  calc h.num * 60 < 24 * (h.den : Int) * 60 := by
        exact mul_lt_mul_of_pos_right hnum (by norm_num)
    _ = 1440 * (h.den : Int) := by ring

theorem hourToMinutes_le {h : ℚ} (h24 : h ≤ 24) : hourToMinutes h ≤ 1440 := by
  unfold hourToMinutes
  have hden : (0 : Int) < (h.den : Int) := by exact_mod_cast h.den_pos
  have hdenQ : (0 : ℚ) < (h.den : ℚ) := by exact_mod_cast h.den_pos
  have hnum : h.num ≤ 24 * (h.den : Int) := by
    have h2 : (h.num : ℚ) ≤ 24 * (h.den : ℚ) := by
      rw [← Rat.num_div_den h] at h24
      exact (div_le_iff₀ hdenQ).mp h24
    exact_mod_cast h2
  have h60 : h.num * 60 ≤ 1440 * (h.den : Int) := by nlinarith
  calc h.num * 60 / (h.den : Int) ≤ 1440 * (h.den : Int) / (h.den : Int) :=
        Int.ediv_le_ediv hden h60
    _ = 1440 := Int.mul_ediv_cancel _ (by omega)

theorem startOfDay_le_self (t : Int) : startOfDay t ≤ t ∧ t < startOfDay t + 1440 := by
  unfold startOfDay
  omega

theorem startOfDay_eq_of_bounds {d x : Int} (h1 : startOfDay d ≤ x)
    (h2 : x < startOfDay d + 1440) : startOfDay x = startOfDay d := by
  unfold startOfDay at *
  omega

/-- Nonempty busy periods starting on the searched date keep the sweep's
gaps inside that date. -/
theorem sweepGaps_dates {dayStart wstart wend : Int} {busy : List (Int × Int)}
    (hws : dayStart ≤ wstart)
    (hwe : wend ≤ dayStart + 1440)
    (hmem : ∀ p ∈ busy, dayStart ≤ p.1 ∧ p.1 < dayStart + 1440 ∧ p.1 < p.2) :
    ∀ g ∈ sweepGaps wend busy wstart,
      dayStart ≤ g.start ∧ g.start < dayStart + 1440
      ∧ g.start < g.endT ∧ g.durationMinutes = g.endT - g.start := by
  intro g hg
  obtain ⟨h1, h2, h3, h4⟩ := sweepGaps_origin wend busy wstart g hg
  refine ⟨?_, ?_, h1, h2⟩
  · rcases h3 with h3 | ⟨p, hp, h3⟩
    · omega
    · obtain ⟨hp1, hp2, hp3⟩ := hmem p hp
      omega
  · rcases h4 with h4 | ⟨p, hp, h4⟩
    · omega
    · obtain ⟨hp1, hp2, hp3⟩ := hmem p hp
      omega

/-- Membership in the combined busy-period list of `findGapsInDay`. -/
theorem busyPeriods_mem {date : Int} {evs : List FixedEvent} {blocks : List ScheduledBlock}
    {p : Int × Int}
    (hp : p ∈ (evs.filter (fun ev => startOfDay ev.start == startOfDay date)).map
            (fun ev => (ev.start, ev.endT))
          ++ (blocks.filter (fun b => startOfDay b.start == startOfDay date)).map
            (fun b => (b.start, b.endT))) :
    (∃ ev ∈ evs, startOfDay ev.start = startOfDay date ∧ p = (ev.start, ev.endT))
    ∨ (∃ b ∈ blocks, startOfDay b.start = startOfDay date ∧ p = (b.start, b.endT)) := by
  rw [List.mem_append] at hp
  rcases hp with hp | hp
  · left
    obtain ⟨ev, hev, rfl⟩ := List.mem_map.mp hp
    have h2 := List.mem_filter.mp hev
    exact ⟨ev, h2.1, by simpa using h2.2, rfl⟩
  · right
    obtain ⟨b, hb, rfl⟩ := List.mem_map.mp hp
    have h2 := List.mem_filter.mp hb
    exact ⟨b, h2.1, by simpa using h2.2, rfl⟩

/-- Every gap of `findGapsInDay` is a nonempty interval lying on the
searched date, provided occupations and blocks are nonempty intervals
and the workday hours stay inside the civil day. -/
theorem findGapsInDay_dates {date : Int} {evs : List FixedEvent}
    {blocks : List ScheduledBlock} {cfg : SchedulerConfig}
    (hevs : ∀ ev ∈ evs, ev.start < ev.endT)
    (hbwf : ∀ b ∈ blocks, b.start < b.endT)
    (hcfg : configHoursSane cfg) :
    ∀ g ∈ findGapsInDay date evs blocks cfg,
      startOfDay g.start = startOfDay date
      ∧ g.start < g.endT
      ∧ g.durationMinutes = g.endT - g.start := by
  intro g hg
  unfold findGapsInDay at hg
  split at hg
  next => cases hg
  next hsun =>
  dsimp only at hg
  have hmemB : ∀ p ∈ stableSortByKey (fun p : Int × Int => p.1)
      ((evs.filter (fun ev => startOfDay ev.start == startOfDay date)).map
          (fun ev => (ev.start, ev.endT))
        ++ (blocks.filter (fun b => startOfDay b.start == startOfDay date)).map
          (fun b => (b.start, b.endT))),
      startOfDay date ≤ p.1 ∧ p.1 < startOfDay date + 1440 ∧ p.1 < p.2 := by
    intro p hp
    rcases busyPeriods_mem (mem_stableSortByKey.mp hp) with ⟨ev, hev, hde, rfl⟩ | ⟨b, hb, hdb, rfl⟩
    · obtain ⟨hle, hlt⟩ := startOfDay_le_self ev.start
      exact ⟨by omega, by omega, hevs ev hev⟩
    · obtain ⟨hle, hlt⟩ := startOfDay_le_self b.start
      exact ⟨by omega, by omega, hbwf b hb⟩
  have hws : startOfDay date ≤ setTimeOnDate date cfg.dayStartHour := by
    unfold setTimeOnDate
    have := hourToMinutes_nonneg hcfg.1
    omega
  have hwe : (if isFriday date = true then setTimeOnDate date 17
      else setTimeOnDate date cfg.dayEndHour) ≤ startOfDay date + 1440 := by
    split
    · unfold setTimeOnDate
      have := hourToMinutes_le (by norm_num : (17 : ℚ) ≤ 24)
      omega
    · unfold setTimeOnDate
      have := hourToMinutes_le hcfg.2.2
      omega
  obtain ⟨g1, g2, g3, g4⟩ := sweepGaps_dates hws hwe hmemB g hg
  exact ⟨startOfDay_eq_of_bounds g1 g2, g3, g4⟩

/-- With well-formed occupations and a well-formed state, every gap of
`findGapsInDay` is disjoint from every occupation and every placed block
lying on the searched date. -/
theorem findGapsInDay_disjoint {date : Int} {evs : List FixedEvent}
    {blocks : List ScheduledBlock} {cfg : SchedulerConfig}
    (hevs : eventsWellFormed evs)
    (hbwf : ∀ b ∈ blocks, b.start < b.endT)
    (hbdisj : List.Pairwise blocksCompatible blocks)
    (hbev : ∀ b ∈ blocks, blockAvoidsEvents evs b) :
    ∀ g ∈ findGapsInDay date evs blocks cfg,
      (∀ ev ∈ evs, startOfDay ev.start = startOfDay date →
        g.endT ≤ ev.start ∨ ev.endT ≤ g.start)
      ∧ (∀ b ∈ blocks, startOfDay b.start = startOfDay date →
        g.endT ≤ b.start ∨ b.endT ≤ g.start) := by
  intro g hg
  unfold findGapsInDay at hg
  split at hg
  next => cases hg
  next hsun =>
  dsimp only at hg
  have hevP : List.Pairwise (fun a b : Int × Int => a.2 ≤ b.1 ∨ b.2 ≤ a.1)
      ((evs.filter (fun ev => startOfDay ev.start == startOfDay date)).map
        (fun ev => (ev.start, ev.endT))) := by
    rw [List.pairwise_map]
    exact (hevs.2.filter _).imp (fun h => h)
  have hblP : List.Pairwise (fun a b : Int × Int => a.2 ≤ b.1 ∨ b.2 ≤ a.1)
      ((blocks.filter (fun b => startOfDay b.start == startOfDay date)).map
        (fun b => (b.start, b.endT))) := by
    rw [List.pairwise_map]
    refine (hbdisj.filter _).imp_of_mem ?_
    intro a b ha hb hab
    have hda := (List.mem_filter.mp ha).2
    have hdb := (List.mem_filter.mp hb).2
    simp only [beq_iff_eq] at hda hdb
    have hsame : sameLocalDate a.start b.start := by
      show startOfDay a.start = startOfDay b.start
      rw [hda, hdb]
    exact hab hsame
  have hcross : ∀ p ∈ (evs.filter (fun ev => startOfDay ev.start == startOfDay date)).map
        (fun ev => (ev.start, ev.endT)),
      ∀ q ∈ (blocks.filter (fun b => startOfDay b.start == startOfDay date)).map
        (fun b => (b.start, b.endT)),
      p.2 ≤ q.1 ∨ q.2 ≤ p.1 := by
    intro p hp q hq
    obtain ⟨ev, hev, rfl⟩ := List.mem_map.mp hp
    obtain ⟨b, hb, rfl⟩ := List.mem_map.mp hq
    have hde := (List.mem_filter.mp hev).2
    have hdb := (List.mem_filter.mp hb).2
    simp only [beq_iff_eq] at hde hdb
    have hsame : sameLocalDate ev.start b.start := by
      show startOfDay ev.start = startOfDay b.start
      rw [hde, hdb]
    have hd : b.endT ≤ ev.start ∨ ev.endT ≤ b.start :=
      hbev b (List.mem_filter.mp hb).1 ev (List.mem_filter.mp hev).1 hsame
    rcases hd with hd | hd
    · right; exact hd
    · left; exact hd
  have hdisjP : List.Pairwise (fun a b : Int × Int => a.2 ≤ b.1 ∨ b.2 ≤ a.1)
      ((evs.filter (fun ev => startOfDay ev.start == startOfDay date)).map
          (fun ev => (ev.start, ev.endT))
        ++ (blocks.filter (fun b => startOfDay b.start == startOfDay date)).map
          (fun b => (b.start, b.endT))) :=
    List.pairwise_append.mpr ⟨hevP, hblP, hcross⟩
  have hne : ∀ p ∈ (evs.filter (fun ev => startOfDay ev.start == startOfDay date)).map
          (fun ev => (ev.start, ev.endT))
        ++ (blocks.filter (fun b => startOfDay b.start == startOfDay date)).map
          (fun b => (b.start, b.endT)),
      p.1 < p.2 := by
    intro p hp
    rcases busyPeriods_mem hp with ⟨ev, hev, -, rfl⟩ | ⟨b, hb, -, rfl⟩
    · exact hevs.1 ev hev
    · exact hbwf b hb
  have hchain := sortedBusy_chain _ hne hdisjP
  have hdis := sweepGaps_disjoint _ _ _ hchain
    (fun p hp => hne p (mem_stableSortByKey.mp hp)) g hg
  constructor
  · intro ev hev hde
    exact hdis (ev.start, ev.endT) (mem_stableSortByKey.mpr (List.mem_append_left _
      (List.mem_map_of_mem _ (List.mem_filter.mpr ⟨hev, by simpa using hde⟩))))
  · intro b hb hdb
    exact hdis (b.start, b.endT) (mem_stableSortByKey.mpr (List.mem_append_right _
      (List.mem_map_of_mem _ (List.mem_filter.mpr ⟨hb, by simpa using hdb⟩))))

/-! ## Generic invariant preservation through Pass 2

Every state change of the floating-task fold is either a successful
`placeChunkDay` placement or bookkeeping that keeps `blocks` and
`velocity` and only appends to `warnings`.  Any state predicate closed
under these two kinds of step is an invariant of the fold. -/

theorem placeChunkLoop_preserves (P : SchedState → Prop) (genId : Nat → String)
    (evs : List FixedEvent) (cfg : SchedulerConfig) (now : Int) (task : Task)
    (chunk : TaskChunk) (sed : Int)
    (hA : ∀ (sd : Int) (st st1 : SchedState),
      placeChunkDay genId evs cfg now task chunk sd st = some st1 → P st → P st1) :
    ∀ (fuel : Nat) (sd : Int) (st : SchedState),
      P st → P (placeChunkLoop genId evs cfg now task chunk sed fuel sd st).2 := by
  intro fuel
  induction fuel with
  | zero => intro sd st h; exact h
  | succ fuel ih =>
    intro sd st h
    rw [placeChunkLoop]
    split
    · exact h
    · split
      next st1 hday => exact hA sd st st1 hday h
      next => exact ih _ _ h

theorem processChunksGo_preserves (P : SchedState → Prop) (genId : Nat → String)
    (evs : List FixedEvent) (cfg : SchedulerConfig) (now : Int) (task : Task) (sed : Int)
    (hA : ∀ (chunk : TaskChunk) (sd : Int) (st st1 : SchedState), 0 < chunk.durationMinutes →
      placeChunkDay genId evs cfg now task chunk sd st = some st1 → P st → P st1) :
    ∀ (chunks : List TaskChunk), (∀ c ∈ chunks, 0 < c.durationMinutes) →
      ∀ (b0 : Bool) (st : SchedState), P st →
        P (processChunksGo genId evs cfg now task sed chunks (b0, st)).2 := by
  intro chunks
  induction chunks with
  | nil => intro _ b0 st h; exact h
  | cons chunk rest ih =>
    intro hpos b0 st h
    rw [processChunksGo]
    dsimp only
    have h1 : P (placeChunk genId evs cfg now task chunk sed st).2 := by
      unfold placeChunk
      exact placeChunkLoop_preserves P genId evs cfg now task chunk sed
        (fun sd st2 st3 hd hp => hA chunk sd st2 st3
          (hpos chunk (List.mem_cons_self _ _)) hd hp) _ _ _ h
    exact ih (fun c hc => hpos c (List.mem_cons_of_mem _ hc)) _ _ h1

/-- Every chunk of a positive-duration item has positive duration. -/
theorem splitTaskIntoChunks_pos {task : Task} (now : Int) (hdur : 0 < task.durationMinutes) :
    ∀ c ∈ splitTaskIntoChunks task now, 0 < c.durationMinutes := by
  intro c hc
  by_cases h : task.durationMinutes ≤ 120 ∨ task.canSplit = false
  · obtain ⟨c0, he, hd, -, -⟩ := @splitTaskIntoChunks_unsplit task now h
    rw [he] at hc
    simp only [List.mem_singleton] at hc
    subst hc
    omega
  · push_neg at h
    have hcs : task.canSplit = true := by
      cases hx : task.canSplit with
      | false => exact absurd hx h.2
      | true => rfl
    exact ((splitTaskIntoChunks_split (by omega) hcs).2 c hc).1

theorem processTask_preserves (P : SchedState → Prop) (genId : Nat → String)
    (evs : List FixedEvent) (cfg : SchedulerConfig) (now ped : Int) (task : Task)
    (hA : ∀ (chunk : TaskChunk) (sd : Int) (st st1 : SchedState), 0 < chunk.durationMinutes →
      placeChunkDay genId evs cfg now task chunk sd st = some st1 → P st → P st1)
    (hB : ∀ (st st2 : SchedState), st2.blocks = st.blocks → st2.velocity = st.velocity →
      (∃ wt, st2.warnings = st.warnings ++ wt) → P st → P st2)
    (hdur : 0 < task.durationMinutes) :
    ∀ st : SchedState, P st → P (processTask genId evs cfg now ped st task) := by
  intro st h
  unfold processTask
  split
  · exact h
  · dsimp only
    have hres : P (processChunks genId evs cfg now task (task.deadline.getD ped)
        (splitTaskIntoChunks task now) st).2 := by
      unfold processChunks
      exact processChunksGo_preserves P genId evs cfg now task (task.deadline.getD ped) hA
        (splitTaskIntoChunks task now) (splitTaskIntoChunks_pos now hdur) true st h
    split
    · exact hB (processChunks genId evs cfg now task (task.deadline.getD ped)
        (splitTaskIntoChunks task now) st).2 _ rfl rfl ⟨[], by simp⟩ hres
    · exact hB (processChunks genId evs cfg now task (task.deadline.getD ped)
        (splitTaskIntoChunks task now) st).2 _ rfl rfl ⟨_, rfl⟩ hres

theorem processTask_fold_preserves (P : SchedState → Prop) (genId : Nat → String)
    (evs : List FixedEvent) (cfg : SchedulerConfig) (now ped : Int) :
    ∀ (ts : List Task),
      (∀ (task : Task) (chunk : TaskChunk) (sd : Int) (st st1 : SchedState),
        task ∈ ts → 0 < chunk.durationMinutes →
        placeChunkDay genId evs cfg now task chunk sd st = some st1 → P st → P st1) →
      (∀ (st st2 : SchedState), st2.blocks = st.blocks → st2.velocity = st.velocity →
        (∃ wt, st2.warnings = st.warnings ++ wt) → P st → P st2) →
      (∀ t ∈ ts, 0 < t.durationMinutes) →
      ∀ st : SchedState, P st → P (ts.foldl (processTask genId evs cfg now ped) st) := by
  intro ts
  induction ts with
  | nil => intro _ _ _ st h; exact h
  | cons t rest ih =>
    intro hA hB hdur st h
    rw [List.foldl_cons]
    refine ih (fun task chunk sd st2 st3 hmem => hA task chunk sd st2 st3
        (List.mem_cons_of_mem _ hmem)) hB
      (fun u hu => hdur u (List.mem_cons_of_mem _ hu)) _ ?_
    exact processTask_preserves P genId evs cfg now ped t
      (fun chunk sd st2 st3 => hA t chunk sd st2 st3 (List.mem_cons_self _ _))
      hB (hdur t (List.mem_cons_self _ _)) st h

/-- A successful day placement preserves the geometric invariant: the
new block is carved from a gap of the searched date, which is disjoint
from every same-date occupation and block. -/
theorem placeChunkDay_stInv {genId : Nat → String} {evs : List FixedEvent}
    {cfg : SchedulerConfig} {now : Int} {task : Task} {chunk : TaskChunk} {sd : Int}
    {st st1 : SchedState}
    (hevs : eventsWellFormed evs) (hcfg : configHoursSane cfg)
    (hchunk : 0 < chunk.durationMinutes)
    (h : placeChunkDay genId evs cfg now task chunk sd st = some st1)
    (hinv : stInv evs st) : stInv evs st1 := by
  obtain ⟨hwf, hpair, hav⟩ := hinv
  obtain ⟨b, slot, wtail, hbl, hslot, h30, hfit, hbid, hbst, hbe, hbdur, hbci,
    hov, hids, hws, hwty, hsun, hvelS, hvelN, hfd⟩ := placeChunkDay_spec h
  obtain ⟨hsd, hslt, hsdur⟩ := findGapsInDay_dates hevs.1 hwf hcfg slot hslot
  obtain ⟨hde, hdb⟩ := findGapsInDay_disjoint hevs hwf hpair hav slot hslot
  have hbend : b.endT ≤ slot.endT := by
    rw [hbe]
    unfold addMinutes
    omega
  have hbwf2 : b.start < b.endT := by
    rw [hbst, hbe]
    unfold addMinutes
    omega
  have hbcomp : ∀ b2 ∈ st.blocks, blocksCompatible b2 b := by
    intro b2 hb2
    show sameLocalDate b2.start b.start → disjointIntervals b2.start b2.endT b.start b.endT
    intro hsame
    have hsame2 : startOfDay b2.start = startOfDay b.start := hsame
    have hdate2 : startOfDay b2.start = startOfDay sd := by
      rw [hsame2, hbst, hsd]
    have hd2 := hdb b2 hb2 hdate2
    show b2.endT ≤ b.start ∨ b.endT ≤ b2.start
    rcases hd2 with h2 | h2
    · right; omega
    · left; omega
  have hbav : blockAvoidsEvents evs b := by
    intro ev hev hsame
    have hsame2 : startOfDay ev.start = startOfDay b.start := hsame
    have hdateE : startOfDay ev.start = startOfDay sd := by
      rw [hsame2, hbst, hsd]
    have hd2 := hde ev hev hdateE
    show b.endT ≤ ev.start ∨ ev.endT ≤ b.start
    rcases hd2 with h2 | h2
    · left; omega
    · right; omega
  refine ⟨?_, ?_, ?_⟩
  · intro b2 hb2
    rw [hbl] at hb2
    rcases List.mem_append.mp hb2 with hb2 | hb2
    · exact hwf b2 hb2
    · simp only [List.mem_singleton] at hb2
      rw [hb2]
      exact hbwf2
  · rw [hbl, List.pairwise_append]
    refine ⟨hpair, List.pairwise_singleton _ _, ?_⟩
    intro b2 hb2 b3 hb3
    simp only [List.mem_singleton] at hb3
    rw [hb3]
    exact hbcomp b2 hb2
  · intro b2 hb2
    rw [hbl] at hb2
    rcases List.mem_append.mp hb2 with hb2 | hb2
    · exact hav b2 hb2
    · simp only [List.mem_singleton] at hb2
      rw [hb2]
      exact hbav

/-- Claim C2 (amended): no collision holds for floating-only inputs, with
well-formed occupations, positive durations and workday hours inside the
civil day; pinned items are laid down with no collision check (see the
counterexample), so the input must carry none. -/
theorem C2_no_collision (now : Int) (genId : Nat → String) (fixedEvents : List FixedEvent)
    (tasks : List Task) (config : SchedulerConfig)
    (hpin : noPinnedTasks tasks) (hevs : eventsWellFormed fixedEvents)
    (hdur : positiveDurations tasks) (hcfg : configHoursSane config) :
    noCollision fixedEvents (generateSchedule now genId fixedEvents tasks config) := by
  unfold generateSchedule
  dsimp only
  rw [schedulePinned_noPinned genId tasks _ hpin]
  have hinv : stInv fixedEvents
      ((stableSortByKey (fun t => -(calculateTaskScore now t))
        (tasks.filter (fun t => t.scheduledStart.isNone))).foldl
          (processTask genId fixedEvents config now
            (addMinutes now (config.planningHorizonDays * 24 * 60)))
          { blocks := [], overloadedTasks := [], warnings := []
            scheduledTaskIds := [], velocity := [], nextId := 0 }) := by
    apply processTask_fold_preserves
    · intro task chunk sd st st1 hmem hcd hday hp
      exact placeChunkDay_stInv hevs hcfg hcd hday hp
    · intro st st2 hb hv hw hp
      have he : stInv fixedEvents st2 ↔ stInv fixedEvents st := by
        unfold stInv
        rw [hb]
      exact he.mpr hp
    · intro t ht
      exact hdur t (List.mem_filter.mp (mem_stableSortByKey.mp ht)).1
    · exact ⟨by simp, List.Pairwise.nil, by simp⟩
  obtain ⟨h1, h2, h3⟩ := hinv
  have hsymm : Symmetric blocksCompatible := by
    intro x y hxy hsame
    have h0 : startOfDay y.start = startOfDay x.start := hsame
    have hd : x.endT ≤ y.start ∨ y.endT ≤ x.start := hxy h0.symm
    exact hd.symm
  refine ⟨?_, ?_⟩
  · exact ((stableSortByKey_perm (fun b : ScheduledBlock => b.start) _).pairwise_iff
      (fun hxy => hsymm hxy)).mpr h2
  · intro b hb
    exact h3 b (mem_stableSortByKey.mp hb)

/-- Claim C2 witness: the amended no-collision theorem at a concrete
scenario (one occupation, one splittable floating deadline item). -/
theorem C2_no_collision_witness :
    (noPinnedTasks c3Tasks ∧ eventsWellFormed c3Events ∧ positiveDurations c3Tasks
      ∧ configHoursSane DEFAULT_CONFIG)
    ∧ noCollision c3Events (generateSchedule 5760 idStream c3Events c3Tasks DEFAULT_CONFIG) :=
  ⟨⟨by decide, by decide, by decide, by decide⟩,
    C2_no_collision 5760 idStream c3Events c3Tasks DEFAULT_CONFIG
      (by decide) (by decide) (by decide) (by decide)⟩

/-- Claim C4 (corrected): the sweep of `findGapsInDay` advances its
cursor to `busy.end` WITHOUT taking the max with the current position,
so nested or overlapping busy intervals re-open covered time (see the
counterexample); for pairwise-disjoint, nonempty occupations and placed
blocks — the regime the spec's `max`-advance description promises —
every returned gap is disjoint from every same-date occupation and
placed block. -/
theorem C4_gap_disjointness (date : Int) (fixedEvents : List FixedEvent)
    (blocks : List ScheduledBlock) (config : SchedulerConfig)
    (hevs : eventsWellFormed fixedEvents)
    (hbwf : ∀ b ∈ blocks, b.start < b.endT)
    (hbdisj : List.Pairwise blocksCompatible blocks)
    (hbev : ∀ b ∈ blocks, blockAvoidsEvents fixedEvents b) :
    ∀ g ∈ findGapsInDay date fixedEvents blocks config,
      (∀ ev ∈ fixedEvents, sameLocalDate ev.start date →
        disjointIntervals g.start g.endT ev.start ev.endT)
      ∧ (∀ b ∈ blocks, sameLocalDate b.start date →
        disjointIntervals g.start g.endT b.start b.endT) := by
  intro g hg
  obtain ⟨hde, hdb⟩ := findGapsInDay_disjoint hevs hbwf hbdisj hbev g hg
  constructor
  · intro ev hev hsame
    have h0 : startOfDay ev.start = startOfDay date := hsame
    show g.endT ≤ ev.start ∨ ev.endT ≤ g.start
    exact hde ev hev h0
  · intro b hb hsame
    have h0 : startOfDay b.start = startOfDay date := hsame
    show g.endT ≤ b.start ∨ b.endT ≤ g.start
    exact hdb b hb h0

/-- Claim C4 witness: the amended gap-disjointness theorem at a concrete
calendar (one Monday occupation, no placed blocks). -/
theorem C4_gap_disjointness_witness :
    (eventsWellFormed c3Events ∧ (∀ b ∈ ([] : List ScheduledBlock), b.start < b.endT)
      ∧ List.Pairwise blocksCompatible ([] : List ScheduledBlock)
      ∧ ∀ b ∈ ([] : List ScheduledBlock), blockAvoidsEvents c3Events b)
    ∧ ∀ g ∈ findGapsInDay 5760 c3Events [] DEFAULT_CONFIG,
        (∀ ev ∈ c3Events, sameLocalDate ev.start 5760 →
          disjointIntervals g.start g.endT ev.start ev.endT)
        ∧ ∀ b ∈ ([] : List ScheduledBlock), sameLocalDate b.start 5760 →
          disjointIntervals g.start g.endT b.start b.endT :=
  ⟨⟨by decide, by decide, by decide, by decide⟩,
    C4_gap_disjointness 5760 c3Events [] DEFAULT_CONFIG (by decide) (by decide)
      (by decide) (by decide)⟩

/-- A successful day placement preserves block well-formedness together
with the family-time discipline: a block landing at or past
`familyTimeStartHour` can only come from the family-time fallback, whose
guard demands an urgent assignment and emits the warning. -/
theorem placeChunkDay_familyTime {genId : Nat → String} {evs : List FixedEvent}
    {cfg : SchedulerConfig} {now : Int} {tasks : List Task} {task : Task}
    {chunk : TaskChunk} {sd : Int} {st st1 : SchedState}
    (hevs : eventsWellFormed evs) (hcfg : configHoursSane cfg)
    (hchunk : 0 < chunk.durationMinutes) (hmem : task ∈ tasks)
    (h : placeChunkDay genId evs cfg now task chunk sd st = some st1)
    (hinv : (∀ b ∈ st.blocks, b.start < b.endT) ∧ familyTimeOk tasks cfg st) :
    (∀ b ∈ st1.blocks, b.start < b.endT) ∧ familyTimeOk tasks cfg st1 := by
  obtain ⟨hwf, hfam⟩ := hinv
  obtain ⟨b, slot, wtail, hbl, hslot, h30, hfit, hbid, hbst, hbe, hbdur, hbci,
    hov, hids, hws, hwty, hsun, hvelS, hvelN, hfd⟩ := placeChunkDay_spec h
  obtain ⟨hsd, hslt, hsdur⟩ := findGapsInDay_dates hevs.1 hwf hcfg slot hslot
  have hbwf2 : b.start < b.endT := by
    rw [hbst, hbe]
    unfold addMinutes
    omega
  constructor
  · intro b2 hb2
    rw [hbl] at hb2
    rcases List.mem_append.mp hb2 with hb2 | hb2
    · exact hwf b2 hb2
    · simp only [List.mem_singleton] at hb2
      rw [hb2]
      exact hbwf2
  · have hbfam : cfg.familyTimeStartHour ≤ getDecimalHour b.start →
        ∃ t ∈ tasks, t.id = b.taskId ∧ t.isAssignment = true
          ∧ (∃ dl, t.deadline = some dl
              ∧ ∃ s, sameLocalDate s b.start ∧ isDeadlineUrgent dl s = true)
          ∧ ∃ w ∈ st1.warnings, w.type = WarningType.family_time_compromised
              ∧ w.taskId = some task.id := by
      intro hft
      rcases hfd with ⟨hff, -⟩ | ⟨-, hassign, ⟨dl, hdl, hurg⟩, hlen⟩
      · exfalso
        unfold isInFamilyTime at hff
        refine absurd ?_ (of_decide_eq_false hff)
        show cfg.familyTimeStartHour ≤ getDecimalHour slot.start
        rw [← hbst]
        exact hft
      · obtain ⟨w, hwl⟩ := List.length_eq_one.mp hlen
        have hwmem : w ∈ wtail := by rw [hwl]; exact List.mem_singleton_self _
        refine ⟨task, hmem, hbid.symm, hassign, ⟨dl, hdl, sd, ?_, hurg⟩, w, ?_, ?_, ?_⟩
        · show startOfDay sd = startOfDay b.start
          rw [hbst]
          exact hsd.symm
        · rw [hws]
          exact List.mem_append_right _ hwmem
        · exact (hwty w hwmem).1
        · exact (hwty w hwmem).2
    intro b2 hb2 hft
    rw [hbl] at hb2
    rcases List.mem_append.mp hb2 with hb2 | hb2
    · obtain ⟨t, ht, g1, g2, g3, w, hwm, g4, g5⟩ := hfam b2 hb2 hft
      exact ⟨t, ht, g1, g2, g3, w, by rw [hws]; exact List.mem_append_left _ hwm, g4, g5⟩
    · simp only [List.mem_singleton] at hb2
      subst hb2
      obtain ⟨t, ht, g1, g2, g3, w, hwm, g4, g5⟩ := hbfam hft
      exact ⟨t, ht, g1, g2, g3, w, hwm, g4, by rw [g5, g1.trans hbid]⟩

/-- Claim C7 (amended): every NON-PINNED placed block starting at or
after `family_time_start_hour` belongs to an input assignment whose
deadline is urgent from some instant of the block's local date, with a
FamilyTimeCompromised warning for that item; pinned blocks bypass the
discipline entirely (see the counterexample), and urgency is evaluated
against the day-search cursor, not the block instant itself. -/
theorem C7_family_time_discipline (now : Int) (genId : Nat → String)
    (fixedEvents : List FixedEvent) (tasks : List Task) (config : SchedulerConfig)
    (hpin : noPinnedTasks tasks) (hevs : eventsWellFormed fixedEvents)
    (hdur : positiveDurations tasks) (hcfg : configHoursSane config) :
    ∀ b ∈ (generateSchedule now genId fixedEvents tasks config).scheduledBlocks,
      config.familyTimeStartHour ≤ getDecimalHour b.start →
      ∃ t ∈ tasks, t.id = b.taskId ∧ t.isAssignment = true
        ∧ (∃ dl, t.deadline = some dl
            ∧ ∃ s, sameLocalDate s b.start ∧ isDeadlineUrgent dl s = true)
        ∧ ∃ w ∈ (generateSchedule now genId fixedEvents tasks config).warnings,
            w.type = WarningType.family_time_compromised ∧ w.taskId = some t.id := by
  unfold generateSchedule
  dsimp only
  rw [schedulePinned_noPinned genId tasks _ hpin]
  have hinv : (∀ b ∈ ((stableSortByKey (fun t => -(calculateTaskScore now t))
        (tasks.filter (fun t => t.scheduledStart.isNone))).foldl
          (processTask genId fixedEvents config now
            (addMinutes now (config.planningHorizonDays * 24 * 60)))
          { blocks := [], overloadedTasks := [], warnings := []
            scheduledTaskIds := [], velocity := [], nextId := 0 }).blocks,
          b.start < b.endT)
      ∧ familyTimeOk tasks config
        ((stableSortByKey (fun t => -(calculateTaskScore now t))
          (tasks.filter (fun t => t.scheduledStart.isNone))).foldl
            (processTask genId fixedEvents config now
              (addMinutes now (config.planningHorizonDays * 24 * 60)))
            { blocks := [], overloadedTasks := [], warnings := []
              scheduledTaskIds := [], velocity := [], nextId := 0 }) := by
    refine processTask_fold_preserves
      (fun st => (∀ b ∈ st.blocks, b.start < b.endT) ∧ familyTimeOk tasks config st)
      genId fixedEvents config now _ _ ?_ ?_ ?_ _ ?_
    · intro task chunk sd st st1 hmem hcd hday hp
      exact placeChunkDay_familyTime hevs hcfg hcd
        (List.mem_filter.mp (mem_stableSortByKey.mp hmem)).1 hday hp
    · intro st st2 hbk hv hw hp
      obtain ⟨wt, hwt⟩ := hw
      obtain ⟨h1, h2⟩ := hp
      refine ⟨by rw [hbk]; exact h1, ?_⟩
      intro b2 hb2 hft
      rw [hbk] at hb2
      obtain ⟨t, ht, g1, g2, g3, w, hwm, g4, g5⟩ := h2 b2 hb2 hft
      exact ⟨t, ht, g1, g2, g3, w, by rw [hwt]; exact List.mem_append_left _ hwm, g4, g5⟩
    · intro t ht
      exact hdur t (List.mem_filter.mp (mem_stableSortByKey.mp ht)).1
    · refine ⟨by simp, ?_⟩
      intro b hb
      exact absurd hb (List.not_mem_nil b)
  obtain ⟨hwfF, hfamF⟩ := hinv
  intro b hb hft
  obtain ⟨t, ht, g1, g2, g3, w, hwm, g4, g5⟩ := hfamF b (mem_stableSortByKey.mp hb) hft
  exact ⟨t, ht, g1, g2, g3, w, List.mem_append_left _ hwm, g4, g5⟩

/-- Claim C7 witness: the amended theorem at a concrete scenario where
the whole Monday workday before family time is occupied and an urgent
assignment is placed (into family time, with the warning). -/
theorem C7_family_time_discipline_witness :
    (noPinnedTasks c7wTasks ∧ eventsWellFormed c7wEvents ∧ positiveDurations c7wTasks
      ∧ configHoursSane DEFAULT_CONFIG)
    ∧ ∀ b ∈ (generateSchedule 5760 idStream c7wEvents c7wTasks DEFAULT_CONFIG).scheduledBlocks,
        DEFAULT_CONFIG.familyTimeStartHour ≤ getDecimalHour b.start →
        ∃ t ∈ c7wTasks, t.id = b.taskId ∧ t.isAssignment = true
          ∧ (∃ dl, t.deadline = some dl
              ∧ ∃ s, sameLocalDate s b.start ∧ isDeadlineUrgent dl s = true)
          ∧ ∃ w ∈ (generateSchedule 5760 idStream c7wEvents c7wTasks DEFAULT_CONFIG).warnings,
              w.type = WarningType.family_time_compromised ∧ w.taskId = some t.id :=
  ⟨⟨by decide, by decide, by decide, by decide⟩,
    C7_family_time_discipline 5760 idStream c7wEvents c7wTasks DEFAULT_CONFIG
      (by decide) (by decide) (by decide) (by decide)⟩

/-! ## Velocity-counter bookkeeping (claim C8) -/

theorem velGet_cons_of_pos {e : (Int × String) × Int} {es : List ((Int × String) × Int)}
    {day : Int} {g : String} (h : (e.1.1 == day && e.1.2 == g) = true) :
    velGet (e :: es) day g = e.2 := by
  unfold velGet
  rw [List.find?_cons_of_pos (p := fun x : (Int × String) × Int => x.1.1 == day && x.1.2 == g) _ h]

theorem velGet_cons_of_neg {e : (Int × String) × Int} {es : List ((Int × String) × Int)}
    {day : Int} {g : String} (h : ¬(e.1.1 == day && e.1.2 == g) = true) :
    velGet (e :: es) day g = velGet es day g := by
  unfold velGet
  rw [List.find?_cons_of_neg (p := fun x : (Int × String) × Int => x.1.1 == day && x.1.2 == g) _ h]

theorem velGet_map_set (day : Int) (g : String) (v : Int) :
    ∀ vel : List ((Int × String) × Int),
      (vel.find? (fun e => e.1.1 == day && e.1.2 == g)).isSome = true →
      velGet (vel.map (fun e => if e.1.1 == day && e.1.2 == g then (e.1, v) else e)) day g
        = v := by
  intro vel
  induction vel with
  | nil => intro h; simp [List.find?] at h
  | cons e es ih =>
    intro h
    by_cases hp : (e.1.1 == day && e.1.2 == g) = true
    · rw [List.map_cons, if_pos hp]
      have hp2 : ((((e.1, v) : (Int × String) × Int)).1.1 == day
          && (((e.1, v) : (Int × String) × Int)).1.2 == g) = true := hp
      rw [velGet_cons_of_pos hp2]
    · rw [List.map_cons, if_neg hp]
      rw [velGet_cons_of_neg hp]
      apply ih
      rw [List.find?_cons_of_neg (p := fun x : (Int × String) × Int => x.1.1 == day && x.1.2 == g) _ hp] at h
      exact h

theorem velGet_map_set_ne (day : Int) (g : String) (v : Int) (day2 : Int) (g2 : String)
    (hne : ¬(day2 = day ∧ g2 = g)) :
    ∀ vel : List ((Int × String) × Int),
      velGet (vel.map (fun e => if e.1.1 == day && e.1.2 == g then (e.1, v) else e)) day2 g2
        = velGet vel day2 g2 := by
  intro vel
  induction vel with
  | nil => rfl
  | cons e es ih =>
    rw [List.map_cons]
    by_cases hp : (e.1.1 == day && e.1.2 == g) = true
    · rw [if_pos hp]
      have hp1 : ¬(e.1.1 == day2 && e.1.2 == g2) = true := by
        intro hc
        rw [Bool.and_eq_true, beq_iff_eq, beq_iff_eq] at hp hc
        exact hne ⟨hc.1.symm.trans hp.1, hc.2.symm.trans hp.2⟩
      have hp2 : ¬((((e.1, v) : (Int × String) × Int)).1.1 == day2
          && (((e.1, v) : (Int × String) × Int)).1.2 == g2) = true := hp1
      rw [velGet_cons_of_neg hp2, velGet_cons_of_neg hp1]
      exact ih
    · rw [if_neg hp]
      by_cases hq : (e.1.1 == day2 && e.1.2 == g2) = true
      · rw [velGet_cons_of_pos hq, velGet_cons_of_pos hq]
      · rw [velGet_cons_of_neg hq, velGet_cons_of_neg hq]
        exact ih

theorem velSet_get_self (vel : List ((Int × String) × Int)) (day : Int) (g : String)
    (v : Int) : velGet (velSet vel day g v) day g = v := by
  unfold velSet
  split
  next hs => exact velGet_map_set day g v vel hs
  next => exact velGet_cons_of_pos (by simp)

theorem velSet_get_ne (vel : List ((Int × String) × Int)) (day : Int) (g : String)
    (v : Int) (day2 : Int) (g2 : String) (hne : ¬(day2 = day ∧ g2 = g)) :
    velGet (velSet vel day g v) day2 g2 = velGet vel day2 g2 := by
  unfold velSet
  split
  next => exact velGet_map_set_ne day g v day2 g2 hne vel
  next =>
    apply velGet_cons_of_neg
    intro hc
    rw [Bool.and_eq_true, beq_iff_eq, beq_iff_eq] at hc
    exact hne ⟨hc.1.symm, hc.2.symm⟩

/-- A successful day placement preserves block well-formedness together
with the velocity-counter invariant: the gate refuses a full counter,
and a placement bumps exactly the `(searched day, goal)` counter while
adding exactly one matching block. -/
theorem placeChunkDay_velocity {genId : Nat → String} {evs : List FixedEvent}
    {cfg : SchedulerConfig} {now : Int} {tasks : List Task} {task : Task}
    {chunk : TaskChunk} {sd : Int} {st st1 : SchedState}
    (hevs : eventsWellFormed evs) (hcfg : configHoursSane cfg)
    (hchunk : 0 < chunk.durationMinutes) (hmem : task ∈ tasks)
    (hnd : distinctTaskIds tasks)
    (h : placeChunkDay genId evs cfg now task chunk sd st = some st1)
    (hinv : (∀ b ∈ st.blocks, b.start < b.endT) ∧ velocityOk tasks cfg st) :
    (∀ b ∈ st1.blocks, b.start < b.endT) ∧ velocityOk tasks cfg st1 := by
  obtain ⟨hwf, hvel⟩ := hinv
  obtain ⟨b, slot, wtail, hbl, hslot, h30, hfit, hbid, hbst, hbe, hbdur, hbci,
    hov, hids, hws, hwty, hsun, hvelS, hvelN, hfd⟩ := placeChunkDay_spec h
  obtain ⟨hsd, hslt, hsdur⟩ := findGapsInDay_dates hevs.1 hwf hcfg slot hslot
  have hbdate : startOfDay b.start = startOfDay sd := by rw [hbst]; exact hsd
  have hbwf2 : b.start < b.endT := by
    rw [hbst, hbe]
    unfold addMinutes
    omega
  have hsplitcount : ∀ (day : Int) (g : String),
      goalDayBlocks tasks st1.blocks day g
        = goalDayBlocks tasks st.blocks day g
          ++ List.filter (fun b2 => decide (startOfDay b2.start = day) &&
              decide (b2.taskId ∈ (tasks.filter (fun t => t.goalId == some g)).map Task.id))
            [b] := by
    intro day g
    rw [hbl]
    unfold goalDayBlocks
    rw [List.filter_append]
  refine ⟨?_, ?_⟩
  · intro b2 hb2
    rw [hbl] at hb2
    rcases List.mem_append.mp hb2 with hb2 | hb2
    · exact hwf b2 hb2
    · simp only [List.mem_singleton] at hb2
      rw [hb2]
      exact hbwf2
  · intro day g hgne
    cases hgoal : task.goalId with
    | none =>
      have hvel1 : st1.velocity = st.velocity := hvelN (Or.inl hgoal)
      have hnotc : List.filter (fun b2 => decide (startOfDay b2.start = day) &&
          decide (b2.taskId ∈ (tasks.filter (fun t => t.goalId == some g)).map Task.id))
            [b] = [] := by
        rw [List.filter_eq_nil_iff]
        intro b2 hb2
        simp only [List.mem_singleton] at hb2
        subst hb2
        rw [Bool.and_eq_true, decide_eq_true_eq, decide_eq_true_eq]
        rintro ⟨-, hin⟩
        obtain ⟨u, hu, huid⟩ := List.mem_map.mp hin
        obtain ⟨humem, hug⟩ := List.mem_filter.mp hu
        have hue : u = task := task_id_injective hnd humem hmem (by rw [huid, hbid])
        rw [hue, hgoal] at hug
        simp at hug
      obtain ⟨hc, hb2⟩ := hvel day g hgne
      rw [hvel1, hsplitcount day g, hnotc, List.append_nil]
      exact ⟨hc, hb2⟩
    | some g0 =>
      by_cases hg0e : g0 = ""
      · subst hg0e
        have hvel1 : st1.velocity = st.velocity := hvelN (Or.inr hgoal)
        have hnotc : List.filter (fun b2 => decide (startOfDay b2.start = day) &&
            decide (b2.taskId ∈ (tasks.filter (fun t => t.goalId == some g)).map Task.id))
              [b] = [] := by
          rw [List.filter_eq_nil_iff]
          intro b2 hb2
          simp only [List.mem_singleton] at hb2
          subst hb2
          rw [Bool.and_eq_true, decide_eq_true_eq, decide_eq_true_eq]
          rintro ⟨-, hin⟩
          obtain ⟨u, hu, huid⟩ := List.mem_map.mp hin
          obtain ⟨humem, hug⟩ := List.mem_filter.mp hu
          have hue : u = task := task_id_injective hnd humem hmem (by rw [huid, hbid])
          rw [hue, hgoal] at hug
          simp only [beq_iff_eq, Option.some.injEq] at hug
          exact hgne hug.symm
        obtain ⟨hc, hb2⟩ := hvel day g hgne
        rw [hvel1, hsplitcount day g, hnotc, List.append_nil]
        exact ⟨hc, hb2⟩
      · obtain ⟨hlt, hvel1⟩ := hvelS g0 hgoal hg0e
        by_cases hkey : day = startOfDay sd ∧ g = g0
        · obtain ⟨rfl, rfl⟩ := hkey
          have hc1 : List.filter (fun b2 => decide (startOfDay b2.start = startOfDay sd) &&
              decide (b2.taskId ∈ (tasks.filter (fun t => t.goalId == some g)).map Task.id))
                [b] = [b] := by
            rw [List.filter_eq_self]
            intro b2 hb2
            simp only [List.mem_singleton] at hb2
            subst hb2
            rw [Bool.and_eq_true, decide_eq_true_eq, decide_eq_true_eq]
            refine ⟨hbdate, ?_⟩
            rw [hbid]
            exact List.mem_map.mpr ⟨task, List.mem_filter.mpr ⟨hmem, by rw [hgoal]; simp⟩, rfl⟩
          obtain ⟨hc, hbd⟩ := hvel (startOfDay sd) g hgne
          rw [hvel1, velSet_get_self, hsplitcount (startOfDay sd) g, hc1]
          constructor
          · rw [hc]
            simp only [List.length_append, List.length_singleton]
            push_cast
            ring
          · omega
        · have hget : velGet st1.velocity day g = velGet st.velocity day g := by
            rw [hvel1]
            exact velSet_get_ne st.velocity (startOfDay sd) g0 _ day g hkey
          have hnotc : List.filter (fun b2 => decide (startOfDay b2.start = day) &&
              decide (b2.taskId ∈ (tasks.filter (fun t => t.goalId == some g)).map Task.id))
                [b] = [] := by
            rw [List.filter_eq_nil_iff]
            intro b2 hb2
            simp only [List.mem_singleton] at hb2
            subst hb2
            rw [Bool.and_eq_true, decide_eq_true_eq, decide_eq_true_eq]
            rintro ⟨hdy, hin⟩
            obtain ⟨u, hu, huid⟩ := List.mem_map.mp hin
            obtain ⟨humem, hug⟩ := List.mem_filter.mp hu
            have hue : u = task := task_id_injective hnd humem hmem (by rw [huid, hbid])
            rw [hue, hgoal] at hug
            simp only [beq_iff_eq, Option.some.injEq] at hug
            exact hkey ⟨hdy.symm.trans hbdate, hug.symm⟩
          obtain ⟨hc, hb2⟩ := hvel day g hgne
          rw [hget, hsplitcount day g, hnotc, List.append_nil]
          exact ⟨hc, hb2⟩

/-- Claim C8 (amended): the per-goal per-day cap holds for every placed
block of a floating item carrying a NONEMPTY goal-identifier; pinned
placements never consult the velocity counter (see the counterexample),
and the source's `if (goalId)` guard is falsy for the empty string, so
items with `goalId = ""` are neither gated nor counted (see
`emptyGoalId_cap_exceeded`); hence the input must carry no pinned item,
the identifiers must be distinct, the cap nonnegative, and the
goal-identifier nonempty. -/
theorem C8_velocity_cap (now : Int) (genId : Nat → String) (fixedEvents : List FixedEvent)
    (tasks : List Task) (config : SchedulerConfig)
    (hnd : distinctTaskIds tasks) (hpin : noPinnedTasks tasks)
    (hdur : positiveDurations tasks) (hevs : eventsWellFormed fixedEvents)
    (hcfg : configHoursSane config) (hmax : 0 ≤ config.maxTasksPerGoalPerDay) :
    ∀ (day : Int) (g : String), g ≠ "" →
      ((goalDayBlocks tasks
          (generateSchedule now genId fixedEvents tasks config).scheduledBlocks day g).length
        : Int) ≤ config.maxTasksPerGoalPerDay := by
  unfold generateSchedule
  dsimp only
  rw [schedulePinned_noPinned genId tasks _ hpin]
  have hinv : (∀ b ∈ ((stableSortByKey (fun t => -(calculateTaskScore now t))
        (tasks.filter (fun t => t.scheduledStart.isNone))).foldl
          (processTask genId fixedEvents config now
            (addMinutes now (config.planningHorizonDays * 24 * 60)))
          { blocks := [], overloadedTasks := [], warnings := []
            scheduledTaskIds := [], velocity := [], nextId := 0 }).blocks,
          b.start < b.endT)
      ∧ velocityOk tasks config
        ((stableSortByKey (fun t => -(calculateTaskScore now t))
          (tasks.filter (fun t => t.scheduledStart.isNone))).foldl
            (processTask genId fixedEvents config now
              (addMinutes now (config.planningHorizonDays * 24 * 60)))
            { blocks := [], overloadedTasks := [], warnings := []
              scheduledTaskIds := [], velocity := [], nextId := 0 }) := by
    refine processTask_fold_preserves
      (fun st => (∀ b ∈ st.blocks, b.start < b.endT) ∧ velocityOk tasks config st)
      genId fixedEvents config now _ _ ?_ ?_ ?_ _ ?_
    · intro task chunk sd st st1 hmem hcd hday hp
      exact placeChunkDay_velocity hevs hcfg hcd
        (List.mem_filter.mp (mem_stableSortByKey.mp hmem)).1 hnd hday hp
    · intro st st2 hbk hv hw hp
      obtain ⟨h1, h2⟩ := hp
      refine ⟨by rw [hbk]; exact h1, ?_⟩
      intro day g hgne
      rw [hv, hbk]
      exact h2 day g hgne
    · intro t ht
      exact hdur t (List.mem_filter.mp (mem_stableSortByKey.mp ht)).1
    · refine ⟨by simp, ?_⟩
      intro day g hgne
      exact ⟨rfl, hmax⟩
  obtain ⟨-, hv⟩ := hinv
  intro day g hgne
  obtain ⟨hc, hbd⟩ := hv day g hgne
  have hlen : (goalDayBlocks tasks (stableSortByKey (fun b : ScheduledBlock => b.start)
      ((stableSortByKey (fun t => -(calculateTaskScore now t))
        (tasks.filter (fun t => t.scheduledStart.isNone))).foldl
          (processTask genId fixedEvents config now
            (addMinutes now (config.planningHorizonDays * 24 * 60)))
          { blocks := [], overloadedTasks := [], warnings := []
            scheduledTaskIds := [], velocity := [], nextId := 0 }).blocks) day g).length
      = (goalDayBlocks tasks ((stableSortByKey (fun t => -(calculateTaskScore now t))
          (tasks.filter (fun t => t.scheduledStart.isNone))).foldl
            (processTask genId fixedEvents config now
              (addMinutes now (config.planningHorizonDays * 24 * 60)))
            { blocks := [], overloadedTasks := [], warnings := []
              scheduledTaskIds := [], velocity := [], nextId := 0 }).blocks day g).length := by
    unfold goalDayBlocks
    exact ((stableSortByKey_perm (fun b : ScheduledBlock => b.start) _).filter _).length_eq
  rw [hlen]
  omega

/-- Claim C8 witness: the amended velocity-cap theorem at a concrete
scenario of four floating one-hour items sharing goal "g". -/
theorem C8_velocity_cap_witness :
    (distinctTaskIds c8wTasks ∧ noPinnedTasks c8wTasks ∧ positiveDurations c8wTasks
      ∧ eventsWellFormed ([] : List FixedEvent) ∧ configHoursSane DEFAULT_CONFIG
      ∧ 0 ≤ DEFAULT_CONFIG.maxTasksPerGoalPerDay)
    ∧ ∀ (day : Int) (g : String), g ≠ "" →
        ((goalDayBlocks c8wTasks
            (generateSchedule 5760 idStream [] c8wTasks DEFAULT_CONFIG).scheduledBlocks
            day g).length : Int)
          ≤ DEFAULT_CONFIG.maxTasksPerGoalPerDay :=
  ⟨⟨by decide, by decide, by decide, by decide, by decide, by decide⟩,
    C8_velocity_cap 5760 idStream [] c8wTasks DEFAULT_CONFIG
      (by decide) (by decide) (by decide) (by decide) (by decide) (by decide)⟩

/-! ## Per-item overload bookkeeping (claim C3) -/

/-- The `if (goalId)` guard is falsy for the empty string: four floating
items with `goalId = ""` all place on the same Monday, exceeding the cap
of 3 — the nonempty-identifier hypothesis of the velocity-cap theorem is
necessary. -/
theorem emptyGoalId_cap_exceeded :
    ((goalDayBlocks c8eTasks
        (generateSchedule 5760 idStream [] c8eTasks DEFAULT_CONFIG).scheduledBlocks
        5760 "").length : Int)
      > DEFAULT_CONFIG.maxTasksPerGoalPerDay := by
  decide

/-- Folding tasks none of which carries id `i` neither adds nor removes
Overloaded warnings carrying `i`. -/
theorem processTask_fold_overloaded_warning_stable (genId : Nat → String)
    (evs : List FixedEvent) (cfg : SchedulerConfig) (now ped : Int) :
    ∀ (ts : List Task) (st : SchedState) (i : String), i ∉ ts.map Task.id →
      (ts.foldl (processTask genId evs cfg now ped) st).warnings.filter
          (fun w => w.taskId == some i && w.type == WarningType.overloaded)
        = st.warnings.filter
            (fun w => w.taskId == some i && w.type == WarningType.overloaded) := by
  intro ts
  induction ts with
  | nil => intro st i _; rfl
  | cons t rest ih =>
    intro st i hni
    rw [List.foldl_cons]
    have hni2 : i ∉ rest.map Task.id := fun hc => hni (List.mem_cons_of_mem _ hc)
    have hti : t.id ≠ i := by
      intro hc
      exact hni (hc ▸ List.mem_map_of_mem Task.id (List.mem_cons_self _ _))
    rw [ih _ i hni2]
    obtain ⟨tail, wtail, hbl, hbid, hws, hwid, htri⟩ :=
      processTask_spec (rfl : processTask genId evs cfg now ped st t = _)
    rw [hws, List.filter_append]
    have hwnil : wtail.filter
        (fun w => w.taskId == some i && w.type == WarningType.overloaded) = [] := by
      rw [List.filter_eq_nil_iff]
      intro w hw
      have h2 := hwid w hw
      rw [Bool.and_eq_true]
      rintro ⟨h3, -⟩
      rw [h2] at h3
      simp only [beq_iff_eq, Option.some.injEq] at h3
      exact hti h3
    rw [hwnil, List.append_nil]

/-- Folding tasks distinct (by id) from `t` does not change whether `t`
belongs to `overloadedTasks`. -/
theorem processTask_fold_overloaded_stable (genId : Nat → String) (evs : List FixedEvent)
    (cfg : SchedulerConfig) (now ped : Int) :
    ∀ (ts : List Task) (st : SchedState) (t : Task), t.id ∉ ts.map Task.id →
      (t ∈ (ts.foldl (processTask genId evs cfg now ped) st).overloadedTasks
        ↔ t ∈ st.overloadedTasks) := by
  intro ts
  induction ts with
  | nil => intro st t _; exact Iff.rfl
  | cons u rest ih =>
    intro st t hni
    rw [List.foldl_cons]
    have hni2 : t.id ∉ rest.map Task.id := fun hc => hni (List.mem_cons_of_mem _ hc)
    have hut : u ≠ t := by
      intro hc
      exact hni (by rw [← hc]; exact List.mem_map_of_mem Task.id (List.mem_cons_self _ _))
    rw [ih _ t hni2]
    obtain ⟨tail, wtail, hbl, hbid, hws, hwid, htri⟩ :=
      processTask_spec (rfl : processTask genId evs cfg now ped st u = _)
    rcases htri with ⟨hst, -, -, -⟩ | ⟨-, hov, -, -, -, -⟩ | ⟨-, hov, -, -, -⟩
    · rw [hst]
    · rw [hov]
    · rw [hov]
      constructor
      · intro hmem
        rcases List.mem_append.mp hmem with hmem | hmem
        · exact hmem
        · simp only [List.mem_singleton] at hmem
          exact absurd hmem.symm hut
      · exact fun hmem => List.mem_append_left _ hmem

/-- Claim C3 (amended): per-item overload bookkeeping.  Every floating
item falls into exactly one of two cases: either it is NOT in
`overloaded` and no Overloaded warning carries its id — and its placed
blocks are one per chunk, or none at all (dependency skip) — or it IS in
`overloaded`, exactly one Overloaded warning carries its id, and strictly
fewer blocks than chunks were placed; in the latter case the placed
partial chunks are NOT removed (see the counterexample), refuting the
claim's "no partial chunks" clause. -/
theorem C3_per_item_accounting (now : Int) (genId : Nat → String)
    (fixedEvents : List FixedEvent) (tasks : List Task) (config : SchedulerConfig)
    (hnd : distinctTaskIds tasks) :
    ∀ t ∈ tasks, t.scheduledStart = none →
      ((t ∉ (generateSchedule now genId fixedEvents tasks config).overloadedTasks
        ∧ (generateSchedule now genId fixedEvents tasks config).warnings.filter
            (fun w => w.taskId == some t.id && w.type == WarningType.overloaded) = []
        ∧ (((generateSchedule now genId fixedEvents tasks config).scheduledBlocks.filter
              (fun b => b.taskId == t.id)).length = (splitTaskIntoChunks t now).length
           ∨ (generateSchedule now genId fixedEvents tasks config).scheduledBlocks.filter
              (fun b => b.taskId == t.id) = []))
      ∨ (t ∈ (generateSchedule now genId fixedEvents tasks config).overloadedTasks
        ∧ (generateSchedule now genId fixedEvents tasks config).warnings.filter
            (fun w => w.taskId == some t.id && w.type == WarningType.overloaded)
            = [{ type := WarningType.overloaded
                 message := "Task \"" ++ t.title ++ "\" could not be fully scheduled"
                 taskId := some t.id }]
        ∧ ((generateSchedule now genId fixedEvents tasks config).scheduledBlocks.filter
            (fun b => b.taskId == t.id)).length < (splitTaskIntoChunks t now).length)) := by
  intro t hmem hfloat
  unfold generateSchedule
  dsimp only
  have hsmem := @sortedTasks_mem now _ _ hmem hfloat
  obtain ⟨l1, l2, hsplit⟩ := List.append_of_mem hsmem
  have hsnodup := @sortedTasks_nodup now _ hnd
  rw [hsplit, List.map_append, List.map_cons] at hsnodup
  have hdisj := (List.nodup_append.mp hsnodup).2.2
  have hnotl1 : t.id ∉ l1.map Task.id := fun hc => hdisj hc (List.mem_cons_self _ _)
  have hnotl2 : t.id ∉ l2.map Task.id :=
    (List.nodup_cons.mp (List.nodup_append.mp hsnodup).2.1).1
  set st0 : SchedState :=
    { blocks := [], overloadedTasks := [], warnings := []
      scheduledTaskIds := [], velocity := [], nextId := 0 } with hst0
  set st1 := schedulePinned genId tasks st0 with hst1
  set ped := addMinutes now (config.planningHorizonDays * 24 * 60) with hped
  set stB := l1.foldl (processTask genId fixedEvents config now ped) st1 with hstB
  set stC := processTask genId fixedEvents config now ped stB t with hstC
  have hfold : (stableSortByKey (fun u => -(calculateTaskScore now u))
      (tasks.filter (fun u => u.scheduledStart.isNone))).foldl
        (processTask genId fixedEvents config now ped) st1
      = l2.foldl (processTask genId fixedEvents config now ped) stC := by
    rw [hsplit, List.foldl_append, List.foldl_cons]
  obtain ⟨hov1, hw1, -⟩ := schedulePinned_unchanged genId tasks st0
  -- nothing of t exists before its own step
  have hst1f : st1.blocks.filter (fun b => b.taskId == t.id) = [] := by
    obtain ⟨ptail, pidt, hpb, -, hpprop, -⟩ := schedulePinned_spec genId tasks st0
    rw [hst1, hpb]
    have h0 : st0.blocks = [] := rfl
    rw [h0, List.nil_append, List.filter_eq_nil_iff]
    intro b hb
    obtain ⟨u, hu, hid, hpin⟩ := hpprop b hb
    simp only [beq_iff_eq]
    rw [hid]
    intro huid
    exact hpin ((task_id_injective hnd hu hmem huid) ▸ hfloat)
  have hstBf : stB.blocks.filter (fun b => b.taskId == t.id) = [] := by
    rw [hstB, processTask_fold_filter_stable genId fixedEvents config now ped l1 st1 t.id
      hnotl1, hst1f]
  have hstBov : t ∉ stB.overloadedTasks := by
    rw [hstB,
      processTask_fold_overloaded_stable genId fixedEvents config now ped l1 st1 t hnotl1,
      hst1, hov1]
    exact List.not_mem_nil t
  have hstBw : stB.warnings.filter
      (fun w => w.taskId == some t.id && w.type == WarningType.overloaded) = [] := by
    rw [hstB, processTask_fold_overloaded_warning_stable genId fixedEvents config now ped
      l1 st1 t.id hnotl1, hst1, hw1]
    rfl
  -- t's own step
  have hCdef : processTask genId fixedEvents config now ped stB t = stC := rfl
  obtain ⟨tail, wtail, hbl, hbid, hws, hwid, htri⟩ := processTask_spec hCdef
  have hstCf : stC.blocks.filter (fun b => b.taskId == t.id) = tail := by
    rw [hbl, List.filter_append, hstBf, List.nil_append, List.filter_eq_self.mpr]
    intro b hb
    simp [hbid b hb]
  have hstCw : stC.warnings.filter
      (fun w => w.taskId == some t.id && w.type == WarningType.overloaded)
      = wtail.filter (fun w => w.taskId == some t.id && w.type == WarningType.overloaded) := by
    rw [hws, List.filter_append, hstBw, List.nil_append]
  -- push the remaining fold over t's step
  rw [hfold]
  have hfinf : (l2.foldl (processTask genId fixedEvents config now ped) stC).blocks.filter
      (fun b => b.taskId == t.id) = tail := by
    rw [processTask_fold_filter_stable genId fixedEvents config now ped l2 stC t.id hnotl2,
      hstCf]
  have hfinov : t ∈ (l2.foldl (processTask genId fixedEvents config now ped)
        stC).overloadedTasks ↔ t ∈ stC.overloadedTasks :=
    processTask_fold_overloaded_stable genId fixedEvents config now ped l2 stC t hnotl2
  have hfinw : (l2.foldl (processTask genId fixedEvents config now ped) stC).warnings.filter
      (fun w => w.taskId == some t.id && w.type == WarningType.overloaded)
      = wtail.filter (fun w => w.taskId == some t.id && w.type == WarningType.overloaded) := by
    rw [processTask_fold_overloaded_warning_stable genId fixedEvents config now ped l2 stC
      t.id hnotl2, hstCw]
  have hanti : ∀ (ts : List Task) (blocks : List ScheduledBlock),
      (antiCramWarnings ts blocks).filter
        (fun w => w.taskId == some t.id && w.type == WarningType.overloaded) = [] := by
    intro ts blocks
    rw [List.filter_eq_nil_iff]
    intro w hw
    have h3 := antiCramWarnings_types ts blocks w hw
    simp [h3]
  have hpermf : ((stableSortByKey (fun b : ScheduledBlock => b.start)
      (l2.foldl (processTask genId fixedEvents config now ped) stC).blocks).filter
        (fun b => b.taskId == t.id)).Perm tail := by
    rw [← hfinf]
    exact (stableSortByKey_perm (fun b : ScheduledBlock => b.start) _).filter _
  have hlenf : ((stableSortByKey (fun b : ScheduledBlock => b.start)
      (l2.foldl (processTask genId fixedEvents config now ped) stC).blocks).filter
        (fun b => b.taskId == t.id)).length = tail.length := hpermf.length_eq
  rcases htri with ⟨hst, htl, hwt, -⟩ | ⟨-, hov, -, hmapd, -, hfilw⟩ | ⟨-, hov, -, hcnt, hfilw⟩
  · -- dependency skip: nothing of t anywhere
    left
    refine ⟨?_, ?_, Or.inr ?_⟩
    · rw [hfinov, hst]
      exact hstBov
    · rw [List.filter_append, hfinw, hwt, hanti]
      rfl
    · subst htl
      exact hpermf.eq_nil
  · -- all chunks placed
    left
    have hwnil : wtail.filter
        (fun w => w.taskId == some t.id && w.type == WarningType.overloaded) = [] := by
      rw [List.filter_eq_nil_iff]
      intro w hw
      have h3 : ¬(w.type == WarningType.overloaded) = true := by
        intro hc
        have h4 : w ∈ wtail.filter (fun w => w.type == WarningType.overloaded) :=
          List.mem_filter.mpr ⟨hw, hc⟩
        rw [hfilw] at h4
        cases h4
      rw [Bool.and_eq_true]
      rintro ⟨-, h5⟩
      exact h3 h5
    refine ⟨?_, ?_, Or.inl ?_⟩
    · rw [hfinov, hov]
      exact hstBov
    · rw [List.filter_append, hfinw, hwnil, hanti]
      rfl
    · rw [hlenf]
      have h6 := congrArg List.length hmapd
      simp only [List.length_map] at h6
      exact h6
  · -- some chunk failed: overloaded, one warning, partial blocks persist
    right
    have hcomb : wtail.filter
        (fun w => w.taskId == some t.id && w.type == WarningType.overloaded)
        = [{ type := WarningType.overloaded
             message := "Task \"" ++ t.title ++ "\" could not be fully scheduled"
             taskId := some t.id }] := by
      rw [← List.filter_filter, hfilw]
      simp
    refine ⟨?_, ?_, ?_⟩
    · rw [hfinov, hov]
      exact List.mem_append_right _ (List.mem_singleton_self _)
    · rw [List.filter_append, hfinw, hcomb, hanti, List.append_nil]
    · rw [hlenf]
      exact hcnt

/-- Claim C3 witness: the per-item accounting theorem at the concrete
overload scenario (a 180-minute splittable Monday-deadline item against
a calendar with one free 90-minute gap). -/
theorem C3_per_item_accounting_witness :
    distinctTaskIds c3Tasks
    ∧ ∀ t ∈ c3Tasks, t.scheduledStart = none →
      ((t ∉ (generateSchedule 5760 idStream c3Events c3Tasks DEFAULT_CONFIG).overloadedTasks
        ∧ (generateSchedule 5760 idStream c3Events c3Tasks DEFAULT_CONFIG).warnings.filter
            (fun w => w.taskId == some t.id && w.type == WarningType.overloaded) = []
        ∧ (((generateSchedule 5760 idStream c3Events c3Tasks
                DEFAULT_CONFIG).scheduledBlocks.filter
              (fun b => b.taskId == t.id)).length = (splitTaskIntoChunks t 5760).length
           ∨ (generateSchedule 5760 idStream c3Events c3Tasks
                DEFAULT_CONFIG).scheduledBlocks.filter
              (fun b => b.taskId == t.id) = []))
      ∨ (t ∈ (generateSchedule 5760 idStream c3Events c3Tasks DEFAULT_CONFIG).overloadedTasks
        ∧ (generateSchedule 5760 idStream c3Events c3Tasks DEFAULT_CONFIG).warnings.filter
            (fun w => w.taskId == some t.id && w.type == WarningType.overloaded)
            = [{ type := WarningType.overloaded
                 message := "Task \"" ++ t.title ++ "\" could not be fully scheduled"
                 taskId := some t.id }]
        ∧ ((generateSchedule 5760 idStream c3Events c3Tasks
              DEFAULT_CONFIG).scheduledBlocks.filter
            (fun b => b.taskId == t.id)).length < (splitTaskIntoChunks t 5760).length)) :=
  ⟨by decide,
    C3_per_item_accounting 5760 idStream c3Events c3Tasks DEFAULT_CONFIG (by decide)⟩

end Scheduler
